import Mathlib

/-!
Verification development for the Static Priority (SP) server of `ns/scheduler/sp.py`.

The Python class `SPServer` is shallowly embedded here:

* Python dictionaries (which preserve insertion order) are modelled as
  association lists `List (κ × α)` together with lookup / set / delete
  operations that keep the insertion order of keys, exactly as CPython does.
* Python lists indexed by `int` (including the negative-index wrap-around
  semantics of CPython) are modelled by `pyListGet` / `pyListSet`.
* The mutable object state of an `SPServer` instance is the structure
  `SPState`; the methods `put` and `update` become pure functions returning
  the mutated state together with an error, where an error corresponds to an
  uncaught Python exception and the returned state holds every mutation
  performed before the raise (Python exceptions do not roll back mutations).
* The side effects of the zero-buffer bridge (a `get` on an upstream store
  and the call of an upstream update callback) are recorded as data in
  `UpdRes`, with stores and callbacks identified by numeric tokens.
* Machine integers of Python are unbounded, hence counters are `Int`.
-/

namespace NsPy

/-- A packet, as produced by `ns.packet.packet.Packet`.  `pid` stands for the
object identity used to key the bridge side tables (`packet_id` in practice);
`prio` is the mutable priority tag written by the server's run loop. -/
structure Packet where
  pid : Nat
  flow_id : Int
  size : Int
  prio : Int
deriving DecidableEq, Repr

/-- Lookup in an insertion-ordered association list (Python `d[k]` read). -/
def dlookup {κ α : Type} [DecidableEq κ] : List (κ × α) → κ → Option α
  | [], _ => none
  | (k', v') :: t, k => if k' = k then some v' else dlookup t k

/-- Key membership (Python `k in d`). -/
def dmem {κ α : Type} [DecidableEq κ] (l : List (κ × α)) (k : κ) : Bool :=
  (dlookup l k).isSome

/-- Python `d[k] = v`: overwrite the value in place if the key exists
(keeping its position in insertion order), otherwise append the key at the
end. -/
def dset {κ α : Type} [DecidableEq κ] : List (κ × α) → κ → α → List (κ × α)
  | [], k, v => [(k, v)]
  | (k', v') :: t, k, v =>
    if k' = k then (k, v) :: t else (k', v') :: dset t k v

/-- Python `del d[k]`. -/
def ddel {κ α : Type} [DecidableEq κ] : List (κ × α) → κ → List (κ × α)
  | [], _ => []
  | (k', v') :: t, k => if k' = k then ddel t k else (k', v') :: ddel t k

/-- `collections.defaultdict(lambda: 0)` addition: `d[k] += v` reads the
default `0` when the key is absent and creates the entry. -/
def ddadd {κ : Type} [DecidableEq κ] (l : List (κ × Int)) (k : κ) (v : Int) :
    List (κ × Int) :=
  dset l k ((dlookup l k).getD 0 + v)

/-- CPython list index resolution: nonnegative indices must be `< n`,
negative indices wrap around from the end, anything else raises `IndexError`
(modelled as `none`). -/
def pyIdx (n : Nat) (i : Int) : Option Nat :=
  if 0 ≤ i then (if i < (n : Int) then some i.toNat else none)
  else (if 0 ≤ i + (n : Int) then some (i + (n : Int)).toNat else none)

/-- Read `l[i]` with CPython index semantics. -/
def pyListGet (l : List Int) (i : Int) : Option Int :=
  (pyIdx l.length i).bind (fun j => l.get? j)

/-- The `priorities` constructor argument of `SPServer`: either a list
indexed by flow id, or a dict mapping flow ids to priorities (association
list in insertion order). -/
inductive Priorities where
  | arr : List Int → Priorities
  | map : List (Int × Int) → Priorities
deriving DecidableEq, Repr

/-- `self.prio[packet.flow_id]`: resolve a flow id to its priority. -/
def resolvePrio : Priorities → Int → Option Int
  | .arr l, fid => pyListGet l fid
  | .map m, fid => dlookup m fid

/-- `self.prio_queue_count`: a Python list for the list configuration form,
a dict keyed by priority value for the dict form. -/
inductive PQC where
  | arr : List Int → PQC
  | map : List (Int × Int) → PQC
deriving DecidableEq, Repr

/-- Read `prio_queue_count[p]` (list indexing or dict lookup). -/
def pqcGet : PQC → Int → Option Int
  | .arr l, p => pyListGet l p
  | .map m, p => dlookup m p

/-- `prio_queue_count[p] += d`; `none` models the `IndexError`/`KeyError`
raised when `p` is not a valid index/key. -/
def pqcAdd : PQC → Int → Int → Option PQC
  | .arr l, p, d =>
    match pyIdx l.length p with
    | none => none
    | some j => some (.arr (l.set j ((l.get? j).getD 0 + d)))
  | .map m, p, d =>
    match dlookup m p with
    | none => none
    | some c => some (.map (dset m p (c + d)))

/-- `self.total_packets()`: the sum of all per-priority counters. -/
def totalPQC : PQC → Int
  | .arr l => l.sum
  | .map m => (m.map (fun p => p.2)).sum

/-- First-occurrence deduplication, as performed by the Python dict
comprehension `{prio: 0 for prio in priorities.values()}` on its keys. -/
def dedupFirst (l : List Int) : List Int :=
  l.foldl (fun acc x => if x ∈ acc then acc else acc ++ [x]) []

/-- The construction-time configuration of an `SPServer`. -/
structure Cfg where
  rate : ℚ
  prio : Priorities
  zero_buffer : Bool
  zero_downstream_buffer : Bool
deriving DecidableEq, Repr

/-- The mutable state of an `SPServer` instance.  `pending` is the number of
items sitting in the `packets_available` store; the two `upstream_*` fields
are the zero-buffer bridge side tables, keyed by packet identity and holding
numeric tokens standing for the upstream store / update callback objects. -/
structure SPState where
  pqc : PQC
  stores : List (Int × List Packet)
  dsStores : List (Int × List Packet)
  byte_sizes : List (Int × Int)
  packets_received : Int
  pending : Int
  upstream_stores : List (Nat × Nat)
  upstream_updates : List (Nat × Nat)
deriving DecidableEq, Repr

/-- `prio_queue_count` as initialised by `SPServer.__init__`. -/
def initPQC : Priorities → PQC
  | .arr l => .arr (List.replicate l.length 0)
  | .map m => .map ((dedupFirst (m.map (fun p => p.2))).map (fun p => (p, (0 : Int))))

/-- The state of a freshly constructed `SPServer`. -/
def initState (cfg : Cfg) : SPState :=
  { pqc := initPQC cfg.prio
    stores := []
    dsStores := []
    byte_sizes := []
    packets_received := 0
    pending := 0
    upstream_stores := []
    upstream_updates := [] }

/-- Uncaught exceptions that `SPServer.put` can raise: `unresolvable` is the
`KeyError`/`IndexError` at `self.prio[packet.flow_id]`, `countKey` the
`IndexError`/`KeyError` at `self.prio_queue_count[prio] += 1`. -/
inductive PutErr where
  | unresolvable
  | countKey
deriving DecidableEq, Repr

/-- The first three statements of `SPServer.put`, which run before the
priority resolution can raise: count the reception, add the packet's size to
the per-flow byte counter, and signal `packets_available` when the element
held no packets. -/
def putA (pkt : Packet) (s : SPState) : SPState :=
  let s := { s with packets_received := s.packets_received + 1 }
  let s := { s with byte_sizes := ddadd s.byte_sizes pkt.flow_id pkt.size }
  if totalPQC s.pqc = 0 then { s with pending := s.pending + 1 } else s

/-- The tail of `SPServer.put` after `prio_queue_count[prio] += 1`
succeeded with new counters `pqc'`: lazily create the FIFO (and mirror FIFO)
for `prio`, record the bridge entries when configured, and enqueue the
packet. -/
def putB (cfg : Cfg) (pkt : Packet) (uu us : Option Nat) (prio : Int)
    (pqc' : PQC) (s : SPState) : SPState :=
  let s := { s with pqc := pqc' }
  let s :=
    if dlookup s.stores prio = none then
      let s := { s with stores := dset s.stores prio [] }
      if cfg.zero_downstream_buffer then
        { s with dsStores := dset s.dsStores prio [] }
      else s
    else s
  let s :=
    match uu, us with
    | some u, some q =>
      if cfg.zero_buffer then
        { s with
          upstream_stores := dset s.upstream_stores pkt.pid q
          upstream_updates := dset s.upstream_updates pkt.pid u }
      else s
    | _, _ => s
  let s :=
    if cfg.zero_downstream_buffer then
      { s with dsStores := dset s.dsStores prio ((dlookup s.dsStores prio).getD [] ++ [pkt]) }
    else s
  { s with stores := dset s.stores prio ((dlookup s.stores prio).getD [] ++ [pkt]) }

/-- `SPServer.put(packet, upstream_update, upstream_store)`, translated
statement by statement.  On an error the returned state contains exactly the
mutations performed before the raise. -/
def put (cfg : Cfg) (pkt : Packet) (uu us : Option Nat) (s : SPState) :
    SPState × Option PutErr :=
  let s := putA pkt s
  match resolvePrio cfg.prio pkt.flow_id with
  | none => (s, some .unresolvable)
  | some prio =>
    match pqcAdd s.pqc prio 1 with
    | none => (s, some .countKey)
    | some pqc' => (putB cfg pkt uu us prio pqc' s, none)

/-- Uncaught exceptions of `SPServer.update`: `bridgeMissing` is the
`KeyError` on the bridge side tables, `prioKey` the error at
`self.prio_queue_count[packet.prio] -= 1`, and `unrecordedFlow` the
`ValueError("... unrecorded flow")`. -/
inductive UpdErr where
  | bridgeMissing
  | prioKey
  | unrecordedFlow
deriving DecidableEq, Repr

/-- The outcome of `SPServer.update`: the optional exception plus the
recorded external side effects of the bridge block (which upstream store a
`get` was issued on, which upstream update callback was invoked). -/
structure UpdRes where
  err : Option UpdErr
  upstreamGet : Option Nat
  invoked : Option Nat
deriving DecidableEq, Repr

/-- The non-bridge tail of `SPServer.update`: decrement the per-priority
counter, then decrement the per-flow byte counter, raising on an unknown
flow. -/
def updateCore (s : SPState) (pkt : Packet) (g i : Option Nat) :
    SPState × UpdRes :=
  match pqcAdd s.pqc pkt.prio (-1) with
  | none => (s, ⟨some .prioKey, g, i⟩)
  | some pqc' =>
    let s := { s with pqc := pqc' }
    if dmem s.byte_sizes pkt.flow_id then
      ({ s with byte_sizes := ddadd s.byte_sizes pkt.flow_id (-pkt.size) },
       ⟨none, g, i⟩)
    else
      (s, ⟨some .unrecordedFlow, g, i⟩)

/-- `SPServer.update(packet)`, translated statement by statement, including
the zero-buffer bridge block that precedes the accounting updates. -/
def update (cfg : Cfg) (s : SPState) (pkt : Packet) : SPState × UpdRes :=
  if cfg.zero_buffer then
    match dlookup s.upstream_stores pkt.pid with
    | none => (s, ⟨some .bridgeMissing, none, none⟩)
    | some q =>
      let s := { s with upstream_stores := ddel s.upstream_stores pkt.pid }
      match dlookup s.upstream_updates pkt.pid with
      | none => (s, ⟨some .bridgeMissing, some q, none⟩)
      | some u =>
        let s := { s with upstream_updates := ddel s.upstream_updates pkt.pid }
        updateCore s pkt (some q) (some u)
  else
    updateCore s pkt none none

/-- The priority/count pairs scanned by one iteration of `SPServer.run`:
`enumerate(self.prio_queue_count)` for the list form (the index is the
priority), `self.prio_queue_count.items()` for the dict form (insertion
order of the dict). -/
def scanPairs (s : SPState) : List (Int × Int) :=
  match s.pqc with
  | .arr l => l.enum.map (fun p => ((p.1 : Int), p.2))
  | .map m => m

/-- The priority `SPServer.run` picks: the first one in scan order whose
queued-packet count is positive. -/
def selectPrio (s : SPState) : Option Int :=
  ((scanPairs s).find? (fun pc => decide (0 < pc.2))).map (fun pc => pc.1)

/-- The serialization delay `packet.size * 8.0 / self.rate` of `run`. -/
def transmissionDelay (size : Int) (rate : ℚ) : ℚ := (size : ℚ) * 8 / rate

/-- Outcome of one service attempt of `SPServer.run`.  `noWork` means no
priority had a positive count (the loop falls through to the idle check);
`stuck` means the chosen priority's store is missing or empty, so the run
process raises a `KeyError` or blocks on an empty `get` before any mutation;
`crashed` means `update` raised inside `run` after the dequeue, killing the
run process with the partially mutated state; `sent` carries the state after
the dequeue and accounting, the transmitted (priority-tagged) packet and its
serialization delay. -/
inductive ServeOut where
  | noWork
  | stuck
  | crashed (s : SPState)
  | sent (s : SPState) (pkt : Packet) (d : ℚ)
deriving DecidableEq, Repr

/-- One pass of the body of `SPServer.run`: scan the priorities in their
fixed order, dequeue the head packet of the first non-empty one (from the
downstream mirror store when `zero_downstream_buffer` is set, from the real
store otherwise), tag it with the priority, perform `update` in the plain
case, and transmit it after the serialization delay. -/
def serveOne (cfg : Cfg) (s : SPState) : ServeOut :=
  match selectPrio s with
  | none => .noWork
  | some q =>
    if cfg.zero_downstream_buffer then
      match dlookup s.dsStores q with
      | none => .stuck
      | some [] => .stuck
      | some (h :: t) =>
        let s := { s with dsStores := dset s.dsStores q t }
        let pkt := { h with prio := q }
        .sent s pkt (transmissionDelay pkt.size cfg.rate)
    else
      match dlookup s.stores q with
      | none => .stuck
      | some [] => .stuck
      | some (h :: t) =>
        let s := { s with stores := dset s.stores q t }
        let pkt := { h with prio := q }
        match update cfg s pkt with
        | (s, r) =>
          match r.err with
          | some _ => .crashed s
          | none => .sent s pkt (transmissionDelay pkt.size cfg.rate)

/-- The flow id of the packet the service loop would transmit next, if any. -/
def firstServed (cfg : Cfg) (s : SPState) : Option Int :=
  match serveOne cfg s with
  | .sent _ pkt _ => some pkt.flow_id
  | _ => none

/-- The deferred drain of this element's own buffer in downstream-mirroring
mode: when the downstream neighbour admits a previously forwarded packet of
priority `q`, its bridge block performs `self.stores[q].get()` on this
element (removing the FIFO head) and then calls this element's `update` on
the packet, which the downstream run loop has tagged with the (aligned)
priority `q`.  Returns the mutated state and whether `update` succeeded;
`none` when this element is not in downstream-mirroring mode or the store
has no packet (no drain can be triggered). -/
def bridgeDrain (cfg : Cfg) (q : Int) (s : SPState) :
    Option (SPState × Bool) :=
  if cfg.zero_downstream_buffer then
    match dlookup s.stores q with
    | some (h :: t) =>
      let s := { s with stores := dset s.stores q t }
      match update cfg s { h with prio := q } with
      | (s', r) => some (s', r.err = none)
    | _ => none
  else none

/-- The per-priority counter as read through `packets_per_priority[p]`. -/
def pqcCount (s : SPState) (p : Int) : Int :=
  (pqcGet s.pqc p).getD 0

/-- The number of packets currently held in the Queue Bank FIFO for `p`
(a FIFO that was never created is empty). -/
def storeLen (s : SPState) (p : Int) : Nat :=
  ((dlookup s.stores p).getD []).length

/-- States of an `SPServer` reachable through completed operations: the
fresh state, any `put` (also a raising one: the exception propagates to the
producer and the partially mutated state persists), any service-loop pass
that transmits a packet, and any completed downstream-triggered drain of the
own buffer in downstream-mirroring mode. -/
inductive Reach (cfg : Cfg) : SPState → Prop where
  | init : Reach cfg (initState cfg)
  | putStep : ∀ s pkt uu us, Reach cfg s → Reach cfg (put cfg pkt uu us s).1
  | serveStep : ∀ s s' pkt d, Reach cfg s → serveOne cfg s = .sent s' pkt d →
      Reach cfg s'
  | drainStep : ∀ s q s', Reach cfg s → bridgeDrain cfg q s = some (s', true) →
      Reach cfg s'

/-- A trace state: the element state together with the history of admitted
packets (with their resolved priorities, in admission order) and of
transmitted packets (in transmission order), plus whether the run process
has died from an exception raised inside `update`. -/
structure SimState where
  st : SPState
  admitted : List (Int × Packet)
  transmitted : List Packet
  crashed : Bool

/-- The initial trace state. -/
def initSim (cfg : Cfg) : SimState :=
  { st := initState cfg, admitted := [], transmitted := [], crashed := false }

/-- A `put` performed by a producer, recorded in the trace: the packet is
logged as admitted (under its resolved priority) exactly when `put`
completed without raising. -/
def simPut (cfg : Cfg) (m : SimState) (pkt : Packet) (uu us : Option Nat) :
    SimState :=
  { m with
    st := (put cfg pkt uu us m.st).1
    admitted :=
      match (put cfg pkt uu us m.st).2, resolvePrio cfg.prio pkt.flow_id with
      | none, some r => m.admitted ++ [(r, pkt)]
      | _, _ => m.admitted }

/-- Trace states reachable in a run of the element: producers may `put` at
any suspension point; the run loop (while alive) may complete a service pass,
transmitting a packet or dying when `update` raises; in downstream-mirroring
mode the downstream neighbour may trigger a drain of the own buffer at any
point (even one whose `update` raises on the downstream side). -/
inductive SimReach (cfg : Cfg) : SimState → Prop where
  | init : SimReach cfg (initSim cfg)
  | putStep : ∀ m pkt uu us, SimReach cfg m →
      SimReach cfg (simPut cfg m pkt uu us)
  | serveSent : ∀ m s' pkt d, SimReach cfg m → m.crashed = false →
      serveOne cfg m.st = .sent s' pkt d →
      SimReach cfg { m with st := s', transmitted := m.transmitted ++ [pkt] }
  | serveCrash : ∀ m s', SimReach cfg m → m.crashed = false →
      serveOne cfg m.st = .crashed s' →
      SimReach cfg { m with st := s', crashed := true }
  | drainStep : ∀ m q s' ok, SimReach cfg m →
      bridgeDrain cfg q m.st = some (s', ok) →
      SimReach cfg { m with st := s' }

/-- Identities of the packets admitted with resolved priority `p`, in
admission order. -/
def admittedPids (m : SimState) (p : Int) : List Nat :=
  (m.admitted.filter (fun e => decide (e.1 = p))).map (fun e => e.2.pid)

/-- Identities of the packets transmitted with priority tag `p`, in
transmission order. -/
def transmittedPids (m : SimState) (p : Int) : List Nat :=
  (m.transmitted.filter (fun q => decide (q.prio = p))).map Packet.pid

/-- The queue that gates transmission for priority `p`: the downstream
mirror FIFO in downstream-mirroring mode, the real FIFO otherwise. -/
def queueOf (cfg : Cfg) (s : SPState) (p : Int) : List Packet :=
  (dlookup (if cfg.zero_downstream_buffer then s.dsStores else s.stores) p).getD []

/-- Where the run process of the C8 scheduler-level model stands: blocked on
`packets_available.get()`, awake (scanning or transmitting), or dead after
an uncaught exception. -/
inductive RPos where
  | blocked
  | busy
  | dead
deriving DecidableEq, Repr

/-- Scheduler-level state: the element state plus the run process position.
The number of outstanding wake signals is `elem.pending`. -/
structure Sys where
  elem : SPState
  rpos : RPos
deriving DecidableEq, Repr

/-- A `put` arriving while the run process is blocked on
`packets_available.get()`: when the element was idle the emitted signal is
matched immediately by the waiting `get` (simpy hands the item to the
pending request inside `Store.put`), so no signal stays outstanding and the
run process becomes runnable. -/
def sysPutBlocked (cfg : Cfg) (pkt : Packet) (uu us : Option Nat)
    (e : SPState) : Sys :=
  let e' := (put cfg pkt uu us e).1
  if totalPQC e.pqc = 0 then ⟨{ e' with pending := e'.pending - 1 }, .busy⟩
  else ⟨e', .blocked⟩

/-- Scheduler-level reachability: the run process starts first (the server
is constructed before the producers), scans the empty element and blocks;
producers `put` at suspension points of whichever process runs; the run
loop serves, consumes one pending signal per idle check, blocks when none is
pending, and dies if `update` raises inside it. -/
inductive SysReach (cfg : Cfg) : Sys → Prop where
  | init : SysReach cfg ⟨initState cfg, .blocked⟩
  | putBlocked : ∀ e pkt uu us, SysReach cfg ⟨e, .blocked⟩ →
      SysReach cfg (sysPutBlocked cfg pkt uu us e)
  | putBusy : ∀ e pkt uu us, SysReach cfg ⟨e, .busy⟩ →
      SysReach cfg ⟨(put cfg pkt uu us e).1, .busy⟩
  | putDead : ∀ e pkt uu us, SysReach cfg ⟨e, .dead⟩ →
      SysReach cfg ⟨(put cfg pkt uu us e).1, .dead⟩
  | serveSent : ∀ e s' pkt d, SysReach cfg ⟨e, .busy⟩ →
      serveOne cfg e = .sent s' pkt d → SysReach cfg ⟨s', .busy⟩
  | serveCrash : ∀ e s', SysReach cfg ⟨e, .busy⟩ →
      serveOne cfg e = .crashed s' → SysReach cfg ⟨s', .dead⟩
  | consume : ∀ e, SysReach cfg ⟨e, .busy⟩ → totalPQC e.pqc = 0 →
      0 < e.pending → SysReach cfg ⟨{ e with pending := e.pending - 1 }, .busy⟩
  | toIdle : ∀ e, SysReach cfg ⟨e, .busy⟩ → totalPQC e.pqc = 0 →
      e.pending = 0 → SysReach cfg ⟨e, .blocked⟩

/-- Whether a `prio_queue_count` value is the list form. -/
def pqcIsArr : PQC → Bool
  | .arr _ => true
  | .map _ => false

/-- Whether a priority configuration is the list form. -/
def prioIsArr : Priorities → Bool
  | .arr _ => true
  | .map _ => false

/-- A priority value that indexes the list-form `prio_queue_count` without
CPython's negative wrap-around; trivial for the dict form. -/
def pqcOk : PQC → Int → Prop
  | .arr _, p => 0 ≤ p
  | .map _, _ => True

/-- All priorities of a list-form configuration are nonnegative (no
negative-index aliasing in `prio_queue_count`); trivial for the dict form. -/
def ArrPrioNonneg (cfg : Cfg) : Prop :=
  match cfg.prio with
  | .arr l => ∀ x ∈ l, 0 ≤ x
  | .map _ => True

/-- The priorities the invariant is stated for: nonnegative values for the
list form (list-form counters are indexed by nonnegative priorities), any
value for the dict form. -/
def PrioOk (cfg : Cfg) (p : Int) : Prop :=
  match cfg.prio with
  | .arr _ => 0 ≤ p
  | .map _ => True

/-- The state's counter representation matches the configuration form. -/
def shapeOk (cfg : Cfg) (s : SPState) : Prop :=
  pqcIsArr s.pqc = prioIsArr cfg.prio

theorem dlookup_dset_self {κ α : Type} [DecidableEq κ] (l : List (κ × α))
    (k : κ) (v : α) : dlookup (dset l k v) k = some v := by
  induction l with
  | nil => simp [dset, dlookup]
  | cons a t ih =>
    by_cases h : a.1 = k
    · simp [dset, dlookup, h]
    · obtain ⟨ak, av⟩ := a
      simp only at h
      simp [dset, dlookup, h, ih]

theorem dlookup_dset_ne {κ α : Type} [DecidableEq κ] (l : List (κ × α))
    (k k' : κ) (v : α) (h : k' ≠ k) :
    dlookup (dset l k v) k' = dlookup l k' := by
  induction l with
  | nil => simp [dset, dlookup, Ne.symm h]
  | cons a t ih =>
    obtain ⟨ak, av⟩ := a
    by_cases hk : ak = k
    · subst hk
      simp [dset, dlookup, Ne.symm h]
    · simp [dset, dlookup, hk, ih]

theorem dset_dset {κ α : Type} [DecidableEq κ] (l : List (κ × α)) (k : κ)
    (v w : α) : dset (dset l k v) k w = dset l k w := by
  induction l with
  | nil => simp [dset]
  | cons a t ih =>
    obtain ⟨ak, av⟩ := a
    by_cases hk : ak = k
    · simp [dset, hk]
    · simp [dset, hk, ih]

theorem dlookup_ddel_self {κ α : Type} [DecidableEq κ] (l : List (κ × α))
    (k : κ) : dlookup (ddel l k) k = none := by
  induction l with
  | nil => simp [ddel, dlookup]
  | cons a t ih =>
    obtain ⟨ak, av⟩ := a
    by_cases hk : ak = k
    · simp [ddel, hk, ih]
    · simp [ddel, dlookup, hk, ih]

theorem dlookup_ddadd_self {κ : Type} [DecidableEq κ] (l : List (κ × Int))
    (k : κ) (v : Int) :
    dlookup (ddadd l k v) k = some ((dlookup l k).getD 0 + v) :=
  dlookup_dset_self l k _

theorem dlookup_ddadd_ne {κ : Type} [DecidableEq κ] (l : List (κ × Int))
    (k k' : κ) (v : Int) (h : k' ≠ k) :
    dlookup (ddadd l k v) k' = dlookup l k' :=
  dlookup_dset_ne l k k' _ h

theorem dmem_ddadd_self {κ : Type} [DecidableEq κ] (l : List (κ × Int))
    (k : κ) (v : Int) : dmem (ddadd l k v) k = true := by
  simp [dmem, dlookup_ddadd_self]

theorem dmem_ddadd_mono {κ : Type} [DecidableEq κ] (l : List (κ × Int))
    (k k' : κ) (v : Int) (h : dmem l k' = true) :
    dmem (ddadd l k v) k' = true := by
  by_cases hk : k' = k
  · subst hk; exact dmem_ddadd_self l k' v
  · simpa [dmem, dlookup_ddadd_ne l k k' v hk] using h

theorem pyIdx_some_lt {n : Nat} {i : Int} {j : Nat} (h : pyIdx n i = some j) :
    j < n := by
  unfold pyIdx at h
  split at h
  · split at h
    · rename_i h0 hn
      cases h
      omega
    · exact absurd h (by simp)
  · split at h
    · rename_i h0 hn
      cases h
      omega
    · exact absurd h (by simp)

theorem pyIdx_nonneg {n : Nat} {i : Int} (h0 : 0 ≤ i) (hn : i < (n : Int)) :
    pyIdx n i = some i.toNat := by
  unfold pyIdx
  simp [h0, hn]

theorem pyIdx_nonneg_ge {n : Nat} {i : Int} (h0 : 0 ≤ i)
    (hn : (n : Int) ≤ i) : pyIdx n i = none := by
  unfold pyIdx
  simp [h0]
  omega

theorem pqcAdd_some_get {c c' : PQC} {p d : Int}
    (h : pqcAdd c p d = some c') :
    pqcGet c' p = some ((pqcGet c p).getD 0 + d) := by
  cases c with
  | arr l =>
    simp only [pqcAdd] at h
    cases hj : pyIdx l.length p with
    | none => rw [hj] at h; cases h
    | some j =>
      rw [hj] at h
      cases h
      have hlt : j < l.length := pyIdx_some_lt hj
      simp only [pqcGet, pyListGet, List.length_set, hj, Option.some_bind]
      simp only [List.get?_eq_getElem?]
      rw [List.getElem?_set_eq_of_lt _ hlt]
  | map m =>
    simp only [pqcAdd] at h
    cases hg : dlookup m p with
    | none => rw [hg] at h; cases h
    | some x =>
      rw [hg] at h
      cases h
      simp [pqcGet, dlookup_dset_self, hg]

theorem pqcAdd_get_ne {c c' : PQC} {p p' d : Int}
    (h : pqcAdd c p d = some c') (hp : pqcOk c p) (hp' : pqcOk c p')
    (hne : p' ≠ p) : pqcGet c' p' = pqcGet c p' := by
  cases c with
  | arr l =>
    simp only [pqcAdd] at h
    cases hj : pyIdx l.length p with
    | none => rw [hj] at h; cases h
    | some j =>
      rw [hj] at h
      cases h
      simp only [pqcOk] at hp hp'
      simp only [pqcGet, pyListGet, List.length_set]
      by_cases hlt : p' < (l.length : Int)
      · rw [pyIdx_nonneg hp' hlt]
        have hpl : p < (l.length : Int) := by
          by_contra hcon
          push_neg at hcon
          rw [pyIdx_nonneg_ge hp hcon] at hj
          cases hj
        have hj' : j = p.toNat := by
          rw [pyIdx_nonneg hp hpl] at hj
          cases hj
          rfl
        have hne' : j ≠ p'.toNat := by omega
        simp only [Option.some_bind, List.get?_eq_getElem?]
        rw [List.getElem?_set_ne hne']
      · rw [pyIdx_nonneg_ge hp' (by omega)]
        rfl
  | map m =>
    simp only [pqcAdd] at h
    cases hg : dlookup m p with
    | none => rw [hg] at h; cases h
    | some x =>
      rw [hg] at h
      cases h
      simp [pqcGet, dlookup_dset_ne _ _ _ _ hne]

theorem pqcAdd_isSome {c : PQC} {p : Int} (d : Int)
    (h : (pqcGet c p).isSome) : (pqcAdd c p d).isSome := by
  cases c with
  | arr l =>
    simp only [pqcGet, pyListGet] at h
    cases hj : pyIdx l.length p with
    | none => rw [hj] at h; simp at h
    | some j => simp [pqcAdd, hj]
  | map m =>
    simp only [pqcGet] at h
    cases hg : dlookup m p with
    | none => rw [hg] at h; simp at h
    | some x => simp [pqcAdd, hg]

theorem pqcAdd_shape {c c' : PQC} {p d : Int} (h : pqcAdd c p d = some c') :
    pqcIsArr c' = pqcIsArr c := by
  cases c with
  | arr l =>
    simp only [pqcAdd] at h
    cases hj : pyIdx l.length p with
    | none => rw [hj] at h; cases h
    | some j => rw [hj] at h; cases h; rfl
  | map m =>
    simp only [pqcAdd] at h
    cases hg : dlookup m p with
    | none => rw [hg] at h; cases h
    | some x => rw [hg] at h; cases h; rfl

theorem resolve_arr_mem {l : List Int} {fid r : Int}
    (h : resolvePrio (.arr l) fid = some r) : r ∈ l := by
  simp only [resolvePrio, pyListGet] at h
  cases hj : pyIdx l.length fid with
  | none => rw [hj] at h; cases h
  | some j =>
    rw [hj] at h
    simp only [Option.some_bind] at h
    exact List.get?_mem h

theorem selectPrio_pqcOk {s : SPState} {q : Int}
    (h : selectPrio s = some q) : pqcOk s.pqc q := by
  unfold selectPrio at h
  cases hf : (scanPairs s).find? (fun pc => decide (0 < pc.2)) with
  | none => rw [hf] at h; cases h
  | some pc =>
    rw [hf] at h
    cases h
    have hmem := List.mem_of_find?_eq_some hf
    cases hc : s.pqc with
    | arr l =>
      simp only [scanPairs, hc] at hmem
      simp only [List.mem_map] at hmem
      obtain ⟨⟨i, x⟩, _, he⟩ := hmem
      simp only [pqcOk]
      rw [← he]
      exact Int.ofNat_nonneg i
    | map m => exact trivial

theorem putA_char (pkt : Packet) (s : SPState) :
    putA pkt s =
      { s with
        packets_received := s.packets_received + 1
        byte_sizes := ddadd s.byte_sizes pkt.flow_id pkt.size
        pending := s.pending + (if totalPQC s.pqc = 0 then 1 else 0) } := by
  unfold putA
  split <;> simp_all

theorem putB_char (cfg : Cfg) (pkt : Packet) (uu us : Option Nat)
    (prio : Int) (pqc' : PQC) (s : SPState) :
    putB cfg pkt uu us prio pqc' s =
      { s with
        pqc := pqc'
        stores := dset s.stores prio ((dlookup s.stores prio).getD [] ++ [pkt])
        dsStores :=
          if cfg.zero_downstream_buffer then
            dset s.dsStores prio
              ((if dlookup s.stores prio = none then []
                else (dlookup s.dsStores prio).getD []) ++ [pkt])
          else s.dsStores
        upstream_stores :=
          match uu, us with
          | some _, some q =>
            if cfg.zero_buffer then dset s.upstream_stores pkt.pid q
            else s.upstream_stores
          | _, _ => s.upstream_stores
        upstream_updates :=
          match uu, us with
          | some u, some _ =>
            if cfg.zero_buffer then dset s.upstream_updates pkt.pid u
            else s.upstream_updates
          | _, _ => s.upstream_updates } := by
  by_cases hmiss : dlookup s.stores prio = none <;>
    by_cases hzd : cfg.zero_downstream_buffer <;>
    by_cases hzb : cfg.zero_buffer <;>
    cases uu <;> cases us <;>
    simp [putB, hmiss, hzd, hzb, dset_dset, dlookup_dset_self]

theorem putB_other (cfg : Cfg) (pkt : Packet) (uu us : Option Nat)
    (prio : Int) (pqc' : PQC) (s : SPState) :
    (putB cfg pkt uu us prio pqc' s).packets_received = s.packets_received ∧
    (putB cfg pkt uu us prio pqc' s).byte_sizes = s.byte_sizes ∧
    (putB cfg pkt uu us prio pqc' s).pending = s.pending := by
  rw [putB_char]
  exact ⟨rfl, rfl, rfl⟩

theorem putB_upstream_on (cfg : Cfg) (pkt : Packet) (u q : Nat)
    (prio : Int) (pqc' : PQC) (s : SPState) (hz : cfg.zero_buffer = true) :
    (putB cfg pkt (some u) (some q) prio pqc' s).upstream_stores =
      dset s.upstream_stores pkt.pid q ∧
    (putB cfg pkt (some u) (some q) prio pqc' s).upstream_updates =
      dset s.upstream_updates pkt.pid u := by
  rw [putB_char]
  simp [hz]

theorem put_fail (cfg : Cfg) (pkt : Packet) (uu us : Option Nat)
    (s : SPState) (e : PutErr) (h : (put cfg pkt uu us s).2 = some e) :
    (put cfg pkt uu us s).1 = putA pkt s := by
  unfold put at h ⊢
  cases hr : resolvePrio cfg.prio pkt.flow_id with
  | none => simp [hr]
  | some prio =>
    cases ha : pqcAdd (putA pkt s).pqc prio 1 with
    | none => simp [hr, ha]
    | some pqc' =>
      rw [hr] at h
      simp only [ha] at h
      cases h

theorem put_success (cfg : Cfg) (pkt : Packet) (uu us : Option Nat)
    (s : SPState) (h : (put cfg pkt uu us s).2 = none) :
    ∃ r pqc', resolvePrio cfg.prio pkt.flow_id = some r ∧
      pqcAdd s.pqc r 1 = some pqc' ∧
      (put cfg pkt uu us s).1 = putB cfg pkt uu us r pqc' (putA pkt s) := by
  unfold put at h ⊢
  cases hr : resolvePrio cfg.prio pkt.flow_id with
  | none => rw [hr] at h; cases h
  | some prio =>
    rw [hr] at h
    cases ha : pqcAdd (putA pkt s).pqc prio 1 with
    | none => simp only [ha] at h; cases h
    | some pqc' =>
      refine ⟨prio, pqc', rfl, ?_, by simp [ha]⟩
      have : (putA pkt s).pqc = s.pqc := by rw [putA_char]
      rw [← this]
      exact ha

theorem put_putA_fields (cfg : Cfg) (pkt : Packet) (uu us : Option Nat)
    (s : SPState) :
    (put cfg pkt uu us s).1.packets_received = s.packets_received + 1 ∧
    (put cfg pkt uu us s).1.byte_sizes = ddadd s.byte_sizes pkt.flow_id pkt.size ∧
    (put cfg pkt uu us s).1.pending =
      s.pending + (if totalPQC s.pqc = 0 then 1 else 0) := by
  cases he : (put cfg pkt uu us s).2 with
  | some e =>
    rw [put_fail cfg pkt uu us s e he, putA_char]
    exact ⟨rfl, rfl, rfl⟩
  | none =>
    obtain ⟨r, pqc', hr, ha, hst⟩ := put_success cfg pkt uu us s he
    have ho := putB_other cfg pkt uu us r pqc' (putA pkt s)
    refine ⟨?_, ?_, ?_⟩
    · rw [hst, ho.1, putA_char]
    · rw [hst, ho.2.1, putA_char]
    · rw [hst, ho.2.2, putA_char]

theorem updateCore_char (s : SPState) (pkt : Packet) (g i : Option Nat) :
    (pqcAdd s.pqc pkt.prio (-1) = none ∧
      updateCore s pkt g i = (s, ⟨some .prioKey, g, i⟩)) ∨
    ∃ pq', pqcAdd s.pqc pkt.prio (-1) = some pq' ∧
      ((dmem s.byte_sizes pkt.flow_id = true ∧
        updateCore s pkt g i =
          ({ s with pqc := pq'
                    byte_sizes := ddadd s.byte_sizes pkt.flow_id (-pkt.size) },
           ⟨none, g, i⟩)) ∨
       (dmem s.byte_sizes pkt.flow_id = false ∧
        updateCore s pkt g i =
          ({ s with pqc := pq' }, ⟨some .unrecordedFlow, g, i⟩))) := by
  rcases ha : pqcAdd s.pqc pkt.prio (-1) with _ | pq'
  · exact Or.inl ⟨rfl, by simp [updateCore, ha]⟩
  · refine Or.inr ⟨pq', rfl, ?_⟩
    by_cases hm : dmem s.byte_sizes pkt.flow_id
    · exact Or.inl ⟨hm, by simp [updateCore, ha, hm]⟩
    · exact Or.inr ⟨by simpa using hm, by simp [updateCore, ha, hm]⟩

theorem updateCore_fields (s : SPState) (pkt : Packet) (g i : Option Nat) :
    (updateCore s pkt g i).1.stores = s.stores ∧
    (updateCore s pkt g i).1.dsStores = s.dsStores ∧
    (updateCore s pkt g i).1.upstream_stores = s.upstream_stores ∧
    (updateCore s pkt g i).1.upstream_updates = s.upstream_updates ∧
    (updateCore s pkt g i).1.pending = s.pending ∧
    (updateCore s pkt g i).2.upstreamGet = g ∧
    (updateCore s pkt g i).2.invoked = i := by
  rcases ha : pqcAdd s.pqc pkt.prio (-1) with _ | pq'
  · simp [updateCore, ha]
  · by_cases hm : dmem s.byte_sizes pkt.flow_id <;> simp [updateCore, ha, hm]

theorem update_char (cfg : Cfg) (s : SPState) (pkt : Packet) :
    (cfg.zero_buffer = false ∧ update cfg s pkt = updateCore s pkt none none) ∨
    (cfg.zero_buffer = true ∧ dlookup s.upstream_stores pkt.pid = none ∧
      update cfg s pkt = (s, ⟨some .bridgeMissing, none, none⟩)) ∨
    (cfg.zero_buffer = true ∧ ∃ q, dlookup s.upstream_stores pkt.pid = some q ∧
      ((dlookup s.upstream_updates pkt.pid = none ∧
        update cfg s pkt =
          ({ s with upstream_stores := ddel s.upstream_stores pkt.pid },
           ⟨some .bridgeMissing, some q, none⟩)) ∨
       (∃ u, dlookup s.upstream_updates pkt.pid = some u ∧
        update cfg s pkt =
          updateCore
            { s with upstream_stores := ddel s.upstream_stores pkt.pid
                     upstream_updates := ddel s.upstream_updates pkt.pid }
            pkt (some q) (some u)))) := by
  by_cases hz : cfg.zero_buffer
  · rcases hq : dlookup s.upstream_stores pkt.pid with _ | q
    · exact Or.inr (Or.inl ⟨hz, rfl, by simp [update, hz, hq]⟩)
    · refine Or.inr (Or.inr ⟨hz, q, rfl, ?_⟩)
      rcases hu : dlookup s.upstream_updates pkt.pid with _ | u
      · exact Or.inl ⟨rfl, by simp [update, hz, hq, hu]⟩
      · exact Or.inr ⟨u, rfl, by simp [update, hz, hq, hu]⟩
  · exact Or.inl ⟨by simpa using hz, by simp [update, hz]⟩

theorem update_fields (cfg : Cfg) (s : SPState) (pkt : Packet) :
    (update cfg s pkt).1.stores = s.stores ∧
    (update cfg s pkt).1.dsStores = s.dsStores ∧
    (update cfg s pkt).1.pending = s.pending := by
  rcases update_char cfg s pkt with ⟨_, he⟩ | ⟨_, _, he⟩ | ⟨_, q, _, ⟨_, he⟩ | ⟨u, _, he⟩⟩
  · rw [he]
    have h := updateCore_fields s pkt none none
    exact ⟨h.1, h.2.1, h.2.2.2.2.1⟩
  · rw [he]
    exact ⟨rfl, rfl, rfl⟩
  · rw [he]
    exact ⟨rfl, rfl, rfl⟩
  · rw [he]
    have h := updateCore_fields
      { s with upstream_stores := ddel s.upstream_stores pkt.pid
               upstream_updates := ddel s.upstream_updates pkt.pid } pkt
      (some q) (some u)
    exact ⟨h.1, h.2.1, h.2.2.2.2.1⟩

theorem serveOne_sent_char {cfg : Cfg} {s s' : SPState} {pkt : Packet}
    {d : ℚ} (h : serveOne cfg s = .sent s' pkt d) :
    ∃ q, selectPrio s = some q ∧ pkt.prio = q ∧
      d = transmissionDelay pkt.size cfg.rate ∧
      ((cfg.zero_downstream_buffer = true ∧
        ∃ hd t, dlookup s.dsStores q = some (hd :: t) ∧
          pkt = { hd with prio := q } ∧
          s' = { s with dsStores := dset s.dsStores q t }) ∨
       (cfg.zero_downstream_buffer = false ∧
        ∃ hd t, dlookup s.stores q = some (hd :: t) ∧
          pkt = { hd with prio := q } ∧
          ∃ r : UpdRes, update cfg { s with stores := dset s.stores q t } pkt = (s', r) ∧
            r.err = none)) := by
  unfold serveOne at h
  cases hq : selectPrio s with
  | none => rw [hq] at h; cases h
  | some q =>
    rw [hq] at h
    dsimp only at h
    refine ⟨q, rfl, ?_⟩
    by_cases hz : cfg.zero_downstream_buffer
    · rw [if_pos hz] at h
      rcases hd : dlookup s.dsStores q with _ | hdt
      · rw [hd] at h; cases h
      · cases hdt with
        | nil => rw [hd] at h; cases h
        | cons x t =>
          rw [hd] at h
          cases h
          exact ⟨rfl, rfl, Or.inl ⟨hz, x, t, rfl, rfl, rfl⟩⟩
    · rw [if_neg hz] at h
      rcases hd : dlookup s.stores q with _ | hdt
      · rw [hd] at h; cases h
      · cases hdt with
        | nil => rw [hd] at h; cases h
        | cons x t =>
          rw [hd] at h
          dsimp only at h
          cases he : (update cfg { s with stores := dset s.stores q t }
              { x with prio := q }).2.err with
          | some e => simp only [he] at h; cases h
          | none =>
            simp only [he] at h
            cases h
            refine ⟨rfl, rfl, Or.inr ⟨by simpa using hz, x, t, rfl, rfl,
              (update cfg { s with stores := dset s.stores q t }
                { x with prio := q }).2, rfl, he⟩⟩

theorem serveOne_crashed_char {cfg : Cfg} {s s' : SPState}
    (h : serveOne cfg s = .crashed s') :
    cfg.zero_downstream_buffer = false ∧
    ∃ q hd t, selectPrio s = some q ∧ dlookup s.stores q = some (hd :: t) ∧
      ∃ r : UpdRes, update cfg { s with stores := dset s.stores q t }
          { hd with prio := q } = (s', r) ∧ r.err ≠ none := by
  unfold serveOne at h
  cases hq : selectPrio s with
  | none => rw [hq] at h; cases h
  | some q =>
    rw [hq] at h
    dsimp only at h
    by_cases hz : cfg.zero_downstream_buffer
    · rw [if_pos hz] at h
      rcases hd : dlookup s.dsStores q with _ | hdt
      · rw [hd] at h; cases h
      · cases hdt with
        | nil => rw [hd] at h; cases h
        | cons x t => rw [hd] at h; cases h
    · rw [if_neg hz] at h
      rcases hd : dlookup s.stores q with _ | hdt
      · rw [hd] at h; cases h
      · cases hdt with
        | nil => rw [hd] at h; cases h
        | cons x t =>
          rw [hd] at h
          dsimp only at h
          cases he : (update cfg { s with stores := dset s.stores q t }
              { x with prio := q }).2.err with
          | some e =>
            simp only [he] at h
            cases h
            exact ⟨by simpa using hz, q, x, t, rfl, hd,
              (update cfg { s with stores := dset s.stores q t }
                { x with prio := q }).2, rfl, by simp [he]⟩
          | none => simp only [he] at h; cases h

theorem bridgeDrain_char {cfg : Cfg} {q : Int} {s s' : SPState} {ok : Bool}
    (h : bridgeDrain cfg q s = some (s', ok)) :
    cfg.zero_downstream_buffer = true ∧
    ∃ hd t, dlookup s.stores q = some (hd :: t) ∧
      ∃ r : UpdRes, update cfg { s with stores := dset s.stores q t }
          { hd with prio := q } = (s', r) ∧ (ok = true ↔ r.err = none) := by
  unfold bridgeDrain at h
  by_cases hz : cfg.zero_downstream_buffer
  · rw [if_pos hz] at h
    rcases hd : dlookup s.stores q with _ | hdt
    · rw [hd] at h; cases h
    · cases hdt with
      | nil => rw [hd] at h; cases h
      | cons x t =>
        rw [hd] at h
        cases h
        refine ⟨hz, x, t, rfl,
          (update cfg { s with stores := dset s.stores q t }
            { x with prio := q }).2, rfl, ?_⟩
        constructor
        · intro hok
          exact of_decide_eq_true hok
        · intro he
          exact decide_eq_true he
  · rw [if_neg hz] at h
    cases h

theorem putA_pqc_stores (pkt : Packet) (s : SPState) :
    (putA pkt s).pqc = s.pqc ∧ (putA pkt s).stores = s.stores ∧
    (putA pkt s).dsStores = s.dsStores ∧
    (putA pkt s).upstream_stores = s.upstream_stores ∧
    (putA pkt s).upstream_updates = s.upstream_updates := by
  rw [putA_char]
  exact ⟨rfl, rfl, rfl, rfl, rfl⟩

theorem initPQC_shape (pr : Priorities) :
    pqcIsArr (initPQC pr) = prioIsArr pr := by
  cases pr <;> rfl

theorem update_err_none_pqc {cfg : Cfg} {s : SPState} {pkt : Packet}
    (h : (update cfg s pkt).2.err = none) :
    ∃ pq', pqcAdd s.pqc pkt.prio (-1) = some pq' ∧
      (update cfg s pkt).1.pqc = pq' := by
  rcases update_char cfg s pkt with ⟨_, he⟩ | ⟨_, _, he⟩ | ⟨_, q, _, ⟨_, he⟩ | ⟨u, _, he⟩⟩
  · rw [he] at h ⊢
    rcases updateCore_char s pkt none none with ⟨_, hc⟩ | ⟨pq', ha, ⟨_, hc⟩ | ⟨_, hc⟩⟩
    · rw [hc] at h; cases h
    · rw [hc] at h ⊢
      exact ⟨pq', ha, rfl⟩
    · rw [hc] at h; cases h
  · rw [he] at h; cases h
  · rw [he] at h; cases h
  · rw [he] at h ⊢
    rcases updateCore_char
        { s with upstream_stores := ddel s.upstream_stores pkt.pid
                 upstream_updates := ddel s.upstream_updates pkt.pid } pkt
        (some q) (some u) with ⟨_, hc⟩ | ⟨pq', ha, ⟨_, hc⟩ | ⟨_, hc⟩⟩
    · rw [hc] at h; cases h
    · rw [hc] at h ⊢
      exact ⟨pq', ha, rfl⟩
    · rw [hc] at h; cases h

theorem update_pqc_cases (cfg : Cfg) (s : SPState) (pkt : Packet) :
    (update cfg s pkt).1.pqc = s.pqc ∨
    ∃ pq', pqcAdd s.pqc pkt.prio (-1) = some pq' ∧
      (update cfg s pkt).1.pqc = pq' := by
  rcases update_char cfg s pkt with ⟨_, he⟩ | ⟨_, _, he⟩ | ⟨_, q, _, ⟨_, he⟩ | ⟨u, _, he⟩⟩
  · rw [he]
    rcases updateCore_char s pkt none none with ⟨_, hc⟩ | ⟨pq', ha, ⟨_, hc⟩ | ⟨_, hc⟩⟩
    · rw [hc]; exact Or.inl rfl
    · rw [hc]; exact Or.inr ⟨pq', ha, rfl⟩
    · rw [hc]; exact Or.inr ⟨pq', ha, rfl⟩
  · rw [he]; exact Or.inl rfl
  · rw [he]; exact Or.inl rfl
  · rw [he]
    rcases updateCore_char
        { s with upstream_stores := ddel s.upstream_stores pkt.pid
                 upstream_updates := ddel s.upstream_updates pkt.pid } pkt
        (some q) (some u) with ⟨_, hc⟩ | ⟨pq', ha, ⟨_, hc⟩ | ⟨_, hc⟩⟩
    · rw [hc]; exact Or.inl rfl
    · rw [hc]; exact Or.inr ⟨pq', ha, rfl⟩
    · rw [hc]; exact Or.inr ⟨pq', ha, rfl⟩

theorem shape_reach {cfg : Cfg} {s : SPState} (h : Reach cfg s) :
    shapeOk cfg s := by
  induction h with
  | init => exact initPQC_shape cfg.prio
  | putStep s pkt uu us hs ih =>
    unfold shapeOk at ih ⊢
    cases he : (put cfg pkt uu us s).2 with
    | some e =>
      rw [put_fail cfg pkt uu us s e he, (putA_pqc_stores pkt s).1]
      exact ih
    | none =>
      obtain ⟨r, pqc', hr, ha, hst⟩ := put_success cfg pkt uu us s he
      rw [hst, putB_char]
      dsimp only
      rw [pqcAdd_shape ha]
      exact ih
  | serveStep s s' pkt d hs hse ih =>
    unfold shapeOk at ih ⊢
    obtain ⟨q, hq, hpq, hd, hcase⟩ := serveOne_sent_char hse
    rcases hcase with ⟨hz, hd', t, hds, hpk, hs'⟩ | ⟨hz, hd', t, hst, hpk, r, hu, herr⟩
    · rw [hs']
      exact ih
    · have := update_pqc_cases cfg { s with stores := dset s.stores q t } pkt
      rcases this with h1 | ⟨pq', ha, h1⟩
      · rw [hu] at h1
        simp only at h1
        rw [h1]
        exact ih
      · rw [hu] at h1
        simp only at h1
        rw [h1, pqcAdd_shape ha]
        exact ih
  | drainStep s q s' hs hdr ih =>
    unfold shapeOk at ih ⊢
    obtain ⟨hz, hd', t, hst, r, hu, hok⟩ := bridgeDrain_char hdr
    have := update_pqc_cases cfg { s with stores := dset s.stores q t }
      { hd' with prio := q }
    rcases this with h1 | ⟨pq', ha, h1⟩
    · rw [hu] at h1
      simp only at h1
      rw [h1]
      exact ih
    · rw [hu] at h1
      simp only at h1
      rw [h1, pqcAdd_shape ha]
      exact ih

theorem pqcOk_of {cfg : Cfg} {s : SPState} (hsh : shapeOk cfg s) {p : Int}
    (hp : PrioOk cfg p) : pqcOk s.pqc p := by
  unfold shapeOk at hsh
  cases hq : s.pqc with
  | arr l =>
    cases hc : cfg.prio with
    | arr l2 =>
      simp only [PrioOk, hc] at hp
      exact hp
    | map m =>
      rw [hq, hc] at hsh
      simp [pqcIsArr, prioIsArr] at hsh
  | map m => exact trivial

theorem resolve_prioOk {cfg : Cfg} (hA : ArrPrioNonneg cfg) {fid r : Int}
    (hr : resolvePrio cfg.prio fid = some r) : PrioOk cfg r := by
  cases hc : cfg.prio with
  | arr l =>
    rw [hc] at hr
    have hmem := resolve_arr_mem hr
    simp only [ArrPrioNonneg, hc] at hA
    simp only [PrioOk, hc]
    exact hA r hmem
  | map m => simp only [PrioOk, hc]

theorem dlookup_zeros (l : List Int) (k : Int) :
    (dlookup (l.map (fun x => (x, (0 : Int)))) k).getD 0 = 0 := by
  induction l with
  | nil => rfl
  | cons a t ih => by_cases h : a = k <;> simp [dlookup, h, ih]

theorem replicate_getD (n j : Nat) :
    ((List.replicate n (0 : Int)).get? j).getD 0 = 0 := by
  cases hg : (List.replicate n (0 : Int)).get? j with
  | none => rfl
  | some x =>
    have := List.eq_of_mem_replicate (List.get?_mem hg)
    simp [this]

theorem pqcCount_init (cfg : Cfg) (p : Int) : pqcCount (initState cfg) p = 0 := by
  unfold pqcCount initState
  dsimp only
  cases hc : cfg.prio with
  | arr l =>
    simp only [initPQC, pqcGet, pyListGet]
    cases hj : pyIdx (List.replicate l.length (0 : Int)).length p with
    | none => simp [hj]
    | some j => simp [hj, replicate_getD]
  | map m =>
    simp only [initPQC, pqcGet]
    exact dlookup_zeros _ p

theorem reach_inv {cfg : Cfg} {s : SPState} (h : Reach cfg s)
    (hA : ArrPrioNonneg cfg) :
    (∀ p, PrioOk cfg p → pqcCount s p = (storeLen s p : Int)) ∧
    (∀ k, dlookup s.stores k ≠ none → PrioOk cfg k) := by
  induction h with
  | init =>
    refine ⟨fun p hp => ?_, fun k hk => ?_⟩
    · rw [pqcCount_init]
      rfl
    · exact absurd rfl hk
  | putStep s pkt uu us hs ih =>
    cases he : (put cfg pkt uu us s).2 with
    | some e =>
      rw [put_fail cfg pkt uu us s e he]
      refine ⟨fun p hp => ?_, fun k hk => ?_⟩
      · unfold pqcCount storeLen
        rw [(putA_pqc_stores pkt s).1, (putA_pqc_stores pkt s).2.1]
        exact ih.1 p hp
      · rw [(putA_pqc_stores pkt s).2.1] at hk
        exact ih.2 k hk
    | none =>
      obtain ⟨r, pqc', hr, ha, hst⟩ := put_success cfg pkt uu us s he
      have hsh := shape_reach hs
      have hPr : PrioOk cfg r := resolve_prioOk hA hr
      have hokr : pqcOk s.pqc r := pqcOk_of hsh hPr
      rw [hst, putB_char]
      refine ⟨fun p hp => ?_, fun k hk => ?_⟩
      · unfold pqcCount storeLen
        dsimp only
        rw [(putA_pqc_stores pkt s).2.1]
        by_cases hpr : p = r
        · subst hpr
          rw [pqcAdd_some_get ha, dlookup_dset_self]
          have hIH := ih.1 p hp
          unfold pqcCount storeLen at hIH
          simp only [Option.getD_some, List.length_append, List.length_cons,
            List.length_nil]
          push_cast
          omega
        · rw [pqcAdd_get_ne ha hokr (pqcOk_of hsh hp) hpr,
            dlookup_dset_ne _ _ _ _ hpr]
          exact ih.1 p hp
      · dsimp only at hk
        rw [(putA_pqc_stores pkt s).2.1] at hk
        by_cases hkr : k = r
        · subst hkr
          exact hPr
        · rw [dlookup_dset_ne _ _ _ _ hkr] at hk
          exact ih.2 k hk
  | serveStep s s' pkt d hs hse ih =>
    obtain ⟨q, hq, hpq, hdel, hcase⟩ := serveOne_sent_char hse
    have hsh := shape_reach hs
    rcases hcase with ⟨hz, hd', t, hds, hpk, hs'⟩ | ⟨hz, hd', t, hstq, hpk, r, hu, herr⟩
    · rw [hs']
      exact ih
    · have herr2 : (update cfg { s with stores := dset s.stores q t } pkt).2.err = none := by
        rw [hu]
        exact herr
      obtain ⟨pq', ha, hpq'⟩ := update_err_none_pqc herr2
      have ha' : pqcAdd s.pqc q (-1) = some pq' := by
        rw [← hpq]
        exact ha
      have hs'pqc : s'.pqc = pq' := by
        rw [← hpq']
        rw [hu]
      have hflds := update_fields cfg { s with stores := dset s.stores q t } pkt
      have hs'stores : s'.stores = dset s.stores q t := by
        have : s' = (update cfg { s with stores := dset s.stores q t } pkt).1 := by
          rw [hu]
        rw [this]
        exact hflds.1
      have hPq : PrioOk cfg q := ih.2 q (by rw [hstq]; exact fun hh => Option.noConfusion hh)
      have hokq : pqcOk s.pqc q := selectPrio_pqcOk hq
      refine ⟨fun p hp => ?_, fun k hk => ?_⟩
      · unfold pqcCount storeLen
        rw [hs'pqc, hs'stores]
        by_cases hpr : p = q
        · subst hpr
          rw [pqcAdd_some_get ha', dlookup_dset_self]
          have hIH := ih.1 p hp
          unfold pqcCount storeLen at hIH
          rw [hstq] at hIH
          simp only [Option.getD_some, List.length_cons] at hIH ⊢
          push_cast at hIH ⊢
          omega
        · rw [pqcAdd_get_ne ha' hokq (pqcOk_of hsh hp) hpr,
            dlookup_dset_ne _ _ _ _ hpr]
          exact ih.1 p hp
      · rw [hs'stores] at hk
        by_cases hkr : k = q
        · subst hkr
          exact hPq
        · rw [dlookup_dset_ne _ _ _ _ hkr] at hk
          exact ih.2 k hk
  | drainStep s q s' hs hdr ih =>
    obtain ⟨hz, hd', t, hstq, r, hu, hok⟩ := bridgeDrain_char hdr
    have hsh := shape_reach hs
    have herr : r.err = none := hok.mp rfl
    have herr2 : (update cfg { s with stores := dset s.stores q t }
        { hd' with prio := q }).2.err = none := by
      rw [hu]
      exact herr
    obtain ⟨pq', ha, hpq'⟩ := update_err_none_pqc herr2
    have ha' : pqcAdd s.pqc q (-1) = some pq' := ha
    have hs'pqc : s'.pqc = pq' := by
      rw [← hpq']
      rw [hu]
    have hflds := update_fields cfg { s with stores := dset s.stores q t }
      { hd' with prio := q }
    have hs'stores : s'.stores = dset s.stores q t := by
      have : s' = (update cfg { s with stores := dset s.stores q t }
          { hd' with prio := q }).1 := by
        rw [hu]
      rw [this]
      exact hflds.1
    have hPq : PrioOk cfg q := ih.2 q (by rw [hstq]; exact fun hh => Option.noConfusion hh)
    have hokq : pqcOk s.pqc q := pqcOk_of hsh hPq
    refine ⟨fun p hp => ?_, fun k hk => ?_⟩
    · unfold pqcCount storeLen
      rw [hs'pqc, hs'stores]
      by_cases hpr : p = q
      · subst hpr
        rw [pqcAdd_some_get ha', dlookup_dset_self]
        have hIH := ih.1 p hp
        unfold pqcCount storeLen at hIH
        rw [hstq] at hIH
        simp only [Option.getD_some, List.length_cons] at hIH ⊢
        push_cast at hIH ⊢
        omega
      · rw [pqcAdd_get_ne ha' hokq (pqcOk_of hsh hp) hpr,
          dlookup_dset_ne _ _ _ _ hpr]
        exact ih.1 p hp
    · rw [hs'stores] at hk
      by_cases hkr : k = q
      · subst hkr
        exact hPq
      · rw [dlookup_dset_ne _ _ _ _ hkr] at hk
        exact ih.2 k hk

theorem admittedPids_append (m : SimState) (r : Int) (pkt : Packet)
    (st' : SPState) (p : Int) :
    admittedPids { m with st := st', admitted := m.admitted ++ [(r, pkt)] } p =
      admittedPids m p ++ (if r = p then [pkt.pid] else []) := by
  unfold admittedPids
  by_cases h : r = p <;> simp [List.filter_append, h]

theorem transmittedPids_append (m : SimState) (pkt : Packet)
    (st' : SPState) (p : Int) :
    transmittedPids { m with st := st', transmitted := m.transmitted ++ [pkt] } p =
      transmittedPids m p ++ (if pkt.prio = p then [pkt.pid] else []) := by
  unfold transmittedPids
  by_cases h : pkt.prio = p <;> simp [List.filter_append, h]

theorem simPut_char (cfg : Cfg) (m : SimState) (pkt : Packet)
    (uu us : Option Nat) :
    (∃ e, (put cfg pkt uu us m.st).2 = some e ∧
      simPut cfg m pkt uu us = { m with st := (put cfg pkt uu us m.st).1 }) ∨
    ((put cfg pkt uu us m.st).2 = none ∧
      ∃ r, resolvePrio cfg.prio pkt.flow_id = some r ∧
        simPut cfg m pkt uu us =
          { m with st := (put cfg pkt uu us m.st).1,
                   admitted := m.admitted ++ [(r, pkt)] }) := by
  cases he : (put cfg pkt uu us m.st).2 with
  | some e => exact Or.inl ⟨e, rfl, by unfold simPut; rw [he]⟩
  | none =>
    obtain ⟨r, pqc', hr, ha, hst⟩ := put_success cfg pkt uu us m.st he
    exact Or.inr ⟨rfl, r, hr, by unfold simPut; rw [he, hr]⟩

theorem admittedPids_tr (m : SimState) (st' : SPState) (tr : List Packet)
    (p : Int) :
    admittedPids { m with st := st', transmitted := tr } p = admittedPids m p :=
  rfl

theorem transmittedPids_adm (m : SimState) (st' : SPState)
    (adm : List (Int × Packet)) (p : Int) :
    transmittedPids { m with st := st', admitted := adm } p =
      transmittedPids m p :=
  rfl

theorem queueOf_zdb {cfg : Cfg} (hz : cfg.zero_downstream_buffer = true)
    (st : SPState) (p : Int) :
    queueOf cfg st p = (dlookup st.dsStores p).getD [] := by
  unfold queueOf
  rw [hz]
  rfl

theorem queueOf_plain {cfg : Cfg} (hz : cfg.zero_downstream_buffer = false)
    (st : SPState) (p : Int) :
    queueOf cfg st p = (dlookup st.stores p).getD [] := by
  unfold queueOf
  rw [hz]
  rfl

theorem fifo_inv {cfg : Cfg} {m : SimState} (h : SimReach cfg m) :
    (∀ p, dlookup m.st.stores p = none → dlookup m.st.dsStores p = none) ∧
    ∀ p, (m.crashed = false →
        admittedPids m p =
          transmittedPids m p ++ (queueOf cfg m.st p).map Packet.pid) ∧
      (m.crashed = true →
        ∃ rest, admittedPids m p = transmittedPids m p ++ rest) := by
  induction h with
  | init =>
    refine ⟨fun p hp => rfl, fun p => ⟨fun _ => ?_, fun hc => by cases hc⟩⟩
    simp [admittedPids, transmittedPids, queueOf, initSim, initState, dlookup]
  | putStep m pkt uu us hs ih =>
    rcases simPut_char cfg m pkt uu us with ⟨e, he, hchar⟩ | ⟨he, r, hr, hchar⟩
    · rw [hchar]
      have hfail := put_fail cfg pkt uu us m.st e he
      have hAs := (putA_pqc_stores pkt m.st).2.1
      have hAd := (putA_pqc_stores pkt m.st).2.2.1
      refine ⟨fun p hp => ?_, fun p => ⟨fun hcf => ?_, fun hct => ?_⟩⟩
      · rw [hfail, hAd]
        rw [hfail, hAs] at hp
        exact ih.1 p hp
      · have hqe : queueOf cfg (put cfg pkt uu us m.st).1 p = queueOf cfg m.st p := by
          unfold queueOf
          rw [hfail, hAs, hAd]
        show admittedPids m p =
          transmittedPids m p ++ (queueOf cfg (put cfg pkt uu us m.st).1 p).map Packet.pid
        rw [hqe]
        exact (ih.2 p).1 hcf
      · exact (ih.2 p).2 hct
    · rw [hchar]
      obtain ⟨r2, pqc', hr2, ha, hst⟩ := put_success cfg pkt uu us m.st he
      rw [hr] at hr2
      cases hr2
      have hAs := (putA_pqc_stores pkt m.st).2.1
      have hAd := (putA_pqc_stores pkt m.st).2.2.1
      have hstores : (put cfg pkt uu us m.st).1.stores =
          dset m.st.stores r ((dlookup m.st.stores r).getD [] ++ [pkt]) := by
        rw [hst, putB_char]
        dsimp only
        rw [hAs]
      have hds : (put cfg pkt uu us m.st).1.dsStores =
          if cfg.zero_downstream_buffer then
            dset m.st.dsStores r
              ((if dlookup m.st.stores r = none then []
                else (dlookup m.st.dsStores r).getD []) ++ [pkt])
          else m.st.dsStores := by
        rw [hst, putB_char]
        dsimp only
        rw [hAs, hAd]
      refine ⟨fun p hp => ?_, fun p => ⟨fun hcf => ?_, fun hct => ?_⟩⟩
      · rw [hstores] at hp
        rw [hds]
        by_cases hpr : p = r
        · subst hpr
          rw [dlookup_dset_self] at hp
          cases hp
        · rw [dlookup_dset_ne _ _ _ _ hpr] at hp
          by_cases hz : cfg.zero_downstream_buffer
          · rw [if_pos hz, dlookup_dset_ne _ _ _ _ hpr]
            exact ih.1 p hp
          · rw [if_neg hz]
            exact ih.1 p hp
      · rw [admittedPids_append, transmittedPids_adm]
        by_cases hz : cfg.zero_downstream_buffer
        · rw [queueOf_zdb hz, hds, if_pos hz]
          have hIH := (ih.2 p).1 hcf
          rw [queueOf_zdb hz] at hIH
          by_cases hpr : r = p
          · subst hpr
            rw [if_pos rfl, dlookup_dset_self]
            by_cases hmiss : dlookup m.st.stores r = none
            · rw [if_pos hmiss]
              have hdn := ih.1 r hmiss
              rw [hdn] at hIH
              simp only [Option.getD_none, List.map_nil, List.append_nil] at hIH
              simp [hIH]
            · rw [if_neg hmiss]
              rw [hIH]
              simp
          · rw [if_neg hpr, dlookup_dset_ne _ _ _ _ (fun hh => hpr hh.symm)]
            rw [hIH]
            simp
        · have hzf : cfg.zero_downstream_buffer = false := by simpa using hz
          rw [queueOf_plain hzf, hstores]
          have hIH := (ih.2 p).1 hcf
          rw [queueOf_plain hzf] at hIH
          by_cases hpr : r = p
          · subst hpr
            rw [if_pos rfl, dlookup_dset_self]
            rw [hIH]
            simp
          · rw [if_neg hpr, dlookup_dset_ne _ _ _ _ (fun hh => hpr hh.symm)]
            rw [hIH]
            simp
      · obtain ⟨rest, hrest⟩ := (ih.2 p).2 hct
        refine ⟨rest ++ (if r = p then [pkt.pid] else []), ?_⟩
        rw [admittedPids_append, transmittedPids_adm, hrest, List.append_assoc]
  | serveSent m s' pkt d hs hcf hse ih =>
    obtain ⟨q, hq, hpq, hdel, hcase⟩ := serveOne_sent_char hse
    rcases hcase with ⟨hz, hd', t, hds, hpk, hs'⟩ | ⟨hz, hd', t, hstq, hpk, r, hu, herr⟩
    · refine ⟨fun p hp => ?_, fun p => ⟨fun _ => ?_, fun hct => ?_⟩⟩
      · rw [hs'] at hp ⊢
        dsimp only at hp ⊢
        by_cases hpr : p = q
        · subst hpr
          exact absurd (ih.1 p hp) (by rw [hds]; exact fun hh => Option.noConfusion hh)
        · rw [dlookup_dset_ne _ _ _ _ hpr]
          exact ih.1 p hp
      · rw [transmittedPids_append, admittedPids_tr, queueOf_zdb hz, hs']
        dsimp only
        have hIH := (ih.2 p).1 hcf
        rw [queueOf_zdb hz] at hIH
        by_cases hpr : pkt.prio = p
        · rw [if_pos hpr]
          rw [hpq] at hpr
          subst hpr
          rw [dlookup_dset_self]
          rw [hds] at hIH
          rw [hIH]
          have hpid : pkt.pid = hd'.pid := by rw [hpk]
          simp [hpid, List.append_assoc]
        · rw [if_neg hpr]
          rw [hpq] at hpr
          rw [dlookup_dset_ne _ _ _ _ (fun hh => hpr hh.symm)]
          rw [hIH]
          simp
      · exact absurd hct (by simpa using hcf)
    · have hflds := update_fields cfg { m.st with stores := dset m.st.stores q t } pkt
      have hs'stores : s'.stores = dset m.st.stores q t := by
        have hh : s' = (update cfg { m.st with stores := dset m.st.stores q t } pkt).1 := by
          rw [hu]
        rw [hh]
        exact hflds.1
      have hs'ds : s'.dsStores = m.st.dsStores := by
        have hh : s' = (update cfg { m.st with stores := dset m.st.stores q t } pkt).1 := by
          rw [hu]
        rw [hh]
        exact hflds.2.1
      refine ⟨fun p hp => ?_, fun p => ⟨fun _ => ?_, fun hct => ?_⟩⟩
      · rw [hs'stores] at hp
        rw [hs'ds]
        by_cases hpr : p = q
        · subst hpr
          rw [dlookup_dset_self] at hp
          cases hp
        · rw [dlookup_dset_ne _ _ _ _ hpr] at hp
          exact ih.1 p hp
      · rw [transmittedPids_append, admittedPids_tr, queueOf_plain hz, hs'stores]
        have hIH := (ih.2 p).1 hcf
        rw [queueOf_plain hz] at hIH
        by_cases hpr : pkt.prio = p
        · rw [if_pos hpr]
          rw [hpq] at hpr
          subst hpr
          rw [dlookup_dset_self]
          rw [hstq] at hIH
          rw [hIH]
          have hpid : pkt.pid = hd'.pid := by rw [hpk]
          simp [hpid, List.append_assoc]
        · rw [if_neg hpr]
          rw [hpq] at hpr
          rw [dlookup_dset_ne _ _ _ _ (fun hh => hpr hh.symm)]
          rw [hIH]
          simp
      · exact absurd hct (by simpa using hcf)
  | serveCrash m s' hs hcf hse ih =>
    obtain ⟨hz, q, hd', t, hq, hstq, r, hu, herr⟩ := serveOne_crashed_char hse
    have hflds := update_fields cfg { m.st with stores := dset m.st.stores q t }
      { hd' with prio := q }
    have hs'stores : s'.stores = dset m.st.stores q t := by
      have hh : s' = (update cfg { m.st with stores := dset m.st.stores q t }
          { hd' with prio := q }).1 := by
        rw [hu]
      rw [hh]
      exact hflds.1
    have hs'ds : s'.dsStores = m.st.dsStores := by
      have hh : s' = (update cfg { m.st with stores := dset m.st.stores q t }
          { hd' with prio := q }).1 := by
        rw [hu]
      rw [hh]
      exact hflds.2.1
    refine ⟨fun p hp => ?_, fun p => ⟨(fun hcc => by cases hcc), fun _ => ?_⟩⟩
    · rw [hs'stores] at hp
      rw [hs'ds]
      by_cases hpr : p = q
      · subst hpr
        rw [dlookup_dset_self] at hp
        cases hp
      · rw [dlookup_dset_ne _ _ _ _ hpr] at hp
        exact ih.1 p hp
    · exact ⟨(queueOf cfg m.st p).map Packet.pid, (ih.2 p).1 hcf⟩
  | drainStep m q s' ok hs hdr ih =>
    obtain ⟨hz, hd', t, hstq, r, hu, hok⟩ := bridgeDrain_char hdr
    have hflds := update_fields cfg { m.st with stores := dset m.st.stores q t }
      { hd' with prio := q }
    have hs'stores : s'.stores = dset m.st.stores q t := by
      have hh : s' = (update cfg { m.st with stores := dset m.st.stores q t }
          { hd' with prio := q }).1 := by
        rw [hu]
      rw [hh]
      exact hflds.1
    have hs'ds : s'.dsStores = m.st.dsStores := by
      have hh : s' = (update cfg { m.st with stores := dset m.st.stores q t }
          { hd' with prio := q }).1 := by
        rw [hu]
      rw [hh]
      exact hflds.2.1
    refine ⟨fun p hp => ?_, fun p => ⟨fun hcf => ?_, fun hct => ?_⟩⟩
    · rw [hs'stores] at hp
      rw [hs'ds]
      by_cases hpr : p = q
      · subst hpr
        rw [dlookup_dset_self] at hp
        cases hp
      · rw [dlookup_dset_ne _ _ _ _ hpr] at hp
        exact ih.1 p hp
    · show admittedPids m p =
        transmittedPids m p ++ (queueOf cfg s' p).map Packet.pid
      rw [queueOf_zdb hz, hs'ds]
      have hIH := (ih.2 p).1 hcf
      rw [queueOf_zdb hz] at hIH
      exact hIH
    · exact (ih.2 p).2 hct

/-! Concrete configurations, packets and states used by the claim
theorems below. -/

/-- Admit two packets in order into a freshly constructed server. -/
def putTwo (cfg : Cfg) (x y : Packet) : SPState :=
  (put cfg y none none (put cfg x none none (initState cfg)).1).1

def cfgC1A : Cfg := ⟨100, .map [(0, 1), (1, 10)], false, false⟩

def cfgC1B : Cfg := ⟨100, .map [(0, 10), (1, 1)], false, false⟩

def pktC1a : Packet := ⟨0, 0, 1000, 0⟩

def pktC1b : Packet := ⟨1, 1, 100, 0⟩

def cfgC2 : Cfg := ⟨100, .arr [1, -1], false, false⟩

def sC2 : SPState := putTwo cfgC2 ⟨0, 0, 5, 0⟩ ⟨1, 1, 7, 0⟩

def cfgC2W : Cfg := ⟨100, .map [(0, 5)], false, false⟩

def cfgC3 : Cfg := ⟨100, .arr [1, 100], false, false⟩

def pktC3 : Packet := ⟨0, 1, 50, 0⟩

def cfgC4W : Cfg := ⟨100, .map [(0, 0)], false, false⟩

def cfgC5 : Cfg := ⟨100, .map [(0, 1)], false, false⟩

def sC5 : SPState := (put cfgC5 ⟨0, 0, 1000, 0⟩ none none (initState cfgC5)).1

def outC5 : ServeOut := serveOne cfgC5 sC5

def sC5sent : SPState :=
  match outC5 with
  | .sent s _ _ => s
  | _ => initState cfgC5

def pktC5 : Packet :=
  match outC5 with
  | .sent _ p _ => p
  | _ => ⟨0, 0, 0, 0⟩

def dC5 : ℚ :=
  match outC5 with
  | .sent _ _ d => d
  | _ => 0

def cfgC6a : Cfg := ⟨100, .map [(0, 1)], false, false⟩

def cfgC6b : Cfg := ⟨100, .map [(0, 1)], true, false⟩

def pktC6 : Packet := ⟨3, 0, 10, 0⟩

def cfgC7W : Cfg := ⟨100, .map [(0, 5)], false, false⟩

def sC7W : SPState := ⟨.map [(5, 0)], [], [], [(9, 0)], 0, 0, [], []⟩

def pktC7W : Packet := ⟨0, 9, 4, 5⟩

def cfgC8 : Cfg := ⟨1, .map [(0, 0)], false, false⟩

def pC8 (i : Nat) : Packet := ⟨i, 0, 1, 0⟩

def eC8a : SPState := ⟨.map [(0, 1)], [(0, [pC8 0])], [], [(0, 1)], 1, 0, [], []⟩

def eC8b : SPState := ⟨.map [(0, 0)], [(0, [])], [], [(0, 0)], 1, 0, [], []⟩

def eC8c : SPState := ⟨.map [(0, 1)], [(0, [pC8 1])], [], [(0, 1)], 2, 1, [], []⟩

def eC8d : SPState := ⟨.map [(0, 0)], [(0, [])], [], [(0, 0)], 2, 1, [], []⟩

def eC8e : SPState := ⟨.map [(0, 1)], [(0, [pC8 2])], [], [(0, 1)], 3, 2, [], []⟩

/-- A schedule of the C8 system model reaching a state with two signals
outstanding: a packet is admitted while the run loop is blocked, served, a
second packet arrives during the transmission that left the element empty
(signalling), is served in turn, and a third packet again arrives during a
transmission with the element empty (signalling a second time before the run
loop has consumed the first signal). -/
theorem sysReach_eC8e : SysReach cfgC8 ⟨eC8e, RPos.busy⟩ := by
  have h0 : SysReach cfgC8 ⟨initState cfgC8, RPos.blocked⟩ := SysReach.init
  have h1 := SysReach.putBlocked (initState cfgC8) (pC8 0) none none h0
  have hb : sysPutBlocked cfgC8 (pC8 0) none none (initState cfgC8) =
      ⟨eC8a, RPos.busy⟩ := by decide
  rw [hb] at h1
  have h2 : SysReach cfgC8 ⟨eC8b, RPos.busy⟩ :=
    SysReach.serveSent eC8a eC8b ⟨0, 0, 1, 0⟩ (transmissionDelay 1 1) h1 rfl
  have h3 := SysReach.putBusy eC8b (pC8 1) none none h2
  have hc : (put cfgC8 (pC8 1) none none eC8b).1 = eC8c := by decide
  rw [hc] at h3
  have h4 : SysReach cfgC8 ⟨eC8d, RPos.busy⟩ :=
    SysReach.serveSent eC8c eC8d ⟨1, 0, 1, 0⟩ (transmissionDelay 1 1) h3 rfl
  have h5 := SysReach.putBusy eC8d (pC8 2) none none h4
  have hd : (put cfgC8 (pC8 2) none none eC8d).1 = eC8e := by decide
  rw [hd] at h5
  exact h5

def cfgC9W : Cfg := ⟨100, .map [(0, 1)], false, false⟩

def pktC9W : Packet := ⟨0, 5, 40, 0⟩

def cfgC10W : Cfg := ⟨100, .map [(0, 5)], true, false⟩

def sC10W : SPState := ⟨.map [(5, 0)], [], [], [], 0, 0, [(3, 9)], [(3, 7)]⟩

def pktC10W : Packet := ⟨3, 9, 4, 5⟩

/-- C1 counterexample: with both flows queued, the mapping configurations
`{0:1, 1:10}` and `{0:10, 1:1}` do NOT invert which flow is served first —
the service loop transmits flow 0's packet first under both, because the
dict-form scan follows the mapping's insertion order, not the numeric order
of the priority values. -/
theorem C1_counterexample :
    firstServed cfgC1A (putTwo cfgC1A pktC1a pktC1b) = some 0 ∧
    firstServed cfgC1B (putTwo cfgC1B pktC1a pktC1b) = some 0 := by
  constructor <;> rfl

/-- C1 (amended): with mapping-form priorities the service loop scans the
priority values in the mapping's insertion order (the order of first
occurrence of each value), not in numeric order; for `{0:1, 1:10}` and
`{0:10, 1:1}` the first-listed flow's priority is scanned first, so with one
packet of flow 0 and one of flow 1 queued (in either arrival order) the
packet transmitted first belongs to flow 0 under both configurations. -/
theorem C1_insertion_order_scan (a b : Packet) (ha : a.flow_id = 0)
    (hb : b.flow_id = 1) :
    firstServed cfgC1A (putTwo cfgC1A a b) = some 0 ∧
    firstServed cfgC1A (putTwo cfgC1A b a) = some 0 ∧
    firstServed cfgC1B (putTwo cfgC1B a b) = some 0 ∧
    firstServed cfgC1B (putTwo cfgC1B b a) = some 0 := by
  obtain ⟨pa, fa, za, ra⟩ := a
  obtain ⟨pb, fb, zb, rb⟩ := b
  simp only at ha hb
  subst ha hb
  refine ⟨?_, ?_, ?_, ?_⟩ <;>
    simp [firstServed, putTwo, put, putA, putB, serveOne, selectPrio,
      scanPairs, update, updateCore, initState, initPQC, dedupFirst,
      resolvePrio, dlookup, dset, ddel, ddadd, dmem, pqcAdd, pqcGet,
      totalPQC, transmissionDelay, cfgC1A, cfgC1B]

/-- C1 witness: the amended scan-order statement instantiated at the two
concrete packets of the example scenario. -/
theorem C1_insertion_order_witness :
    firstServed cfgC1A (putTwo cfgC1A pktC1a pktC1b) = some 0 ∧
    firstServed cfgC1A (putTwo cfgC1A pktC1b pktC1a) = some 0 ∧
    firstServed cfgC1B (putTwo cfgC1B pktC1a pktC1b) = some 0 ∧
    firstServed cfgC1B (putTwo cfgC1B pktC1b pktC1a) = some 0 :=
  C1_insertion_order_scan pktC1a pktC1b rfl rfl

/-- C2 counterexample: with the array configuration `[1, -1]` the packet of
flow 1 resolves to priority `-1`, and `prio_queue_count[-1] += 1` silently
wraps to the last list cell (CPython negative indexing), double-counting
priority 1 while the FIFO for priority 1 holds a single packet: the state
reached by two admissions violates `packets_per_priority[p] == len(FIFO p)`
at `p = 1`. -/
theorem C2_counterexample :
    Reach cfgC2 sC2 ∧ pqcCount sC2 1 ≠ (storeLen sC2 1 : Int) := by
  constructor
  · exact Reach.putStep _ _ none none (Reach.putStep _ _ none none Reach.init)
  · decide

/-- C2 (amended): for every mapping-form configuration, and for every
array-form configuration whose priority values are all nonnegative (no
CPython negative-index aliasing), in every state reachable through
completed puts, service passes and downstream-triggered drains, the counter
`packets_per_priority[p]` equals the number of packets in the Queue Bank
FIFO for `p`, for every priority `p` (every nonnegative `p` in the array
form). -/
theorem C2_counter_matches_fifo (cfg : Cfg) (s : SPState) (h : Reach cfg s)
    (hA : ArrPrioNonneg cfg) (p : Int) (hp : PrioOk cfg p) :
    pqcCount s p = (storeLen s p : Int) :=
  (reach_inv h hA).1 p hp

/-- C2 witness: the invariant instantiated at a freshly constructed server
with the mapping configuration `{0: 5}` and priority 5. -/
theorem C2_counter_matches_fifo_witness :
    pqcCount (initState cfgC2W) 5 = (storeLen (initState cfgC2W) 5 : Int) :=
  C2_counter_matches_fifo cfgC2W (initState cfgC2W) Reach.init trivial 5 trivial

/-- C3: the code contradicts its own docstring and shipped example.  With
the documented array configuration `[1, 100]` (used verbatim in
`examples/sp.py`), flow 1 resolves to priority 100, yet `put` raises an
`IndexError` at `self.prio_queue_count[100] += 1` because the counter list
has length 2 — `put` raises for a resolvable flow id. -/
theorem C3_resolvable_flow_put_raises :
    resolvePrio cfgC3.prio pktC3.flow_id = some 100 ∧
    (put cfgC3 pktC3 none none (initState cfgC3)).2 = some PutErr.countKey := by
  constructor <;> rfl

/-- C4: strict FIFO within each priority, in both the plain and the
downstream-mirroring mode: along every reachable trace, the sequence of
packet identities transmitted with priority tag `p` is a prefix of the
sequence of packet identities admitted with resolved priority `p`. -/
theorem C4_fifo_within_priority (cfg : Cfg) (m : SimState)
    (h : SimReach cfg m) (p : Int) :
    ∃ rest, admittedPids m p = transmittedPids m p ++ rest := by
  cases hc : m.crashed with
  | false => exact ⟨(queueOf cfg m.st p).map Packet.pid, ((fifo_inv h).2 p).1 hc⟩
  | true => exact ((fifo_inv h).2 p).2 hc

/-- C4 witness: the FIFO property instantiated at the empty trace. -/
theorem C4_fifo_witness :
    ∃ rest, admittedPids (initSim cfgC4W) 0 =
      transmittedPids (initSim cfgC4W) 0 ++ rest :=
  C4_fifo_within_priority cfgC4W (initSim cfgC4W) SimReach.init 0

/-- C5: every packet the service loop transmits occupies the link for
`packet.size * 8 / rate` simulated time units; in particular a 1000-byte
packet at rate 100 occupies it for exactly 80 units. -/
theorem C5_serialization_delay (cfg : Cfg) (s s' : SPState) (pkt : Packet)
    (d : ℚ) (h : serveOne cfg s = .sent s' pkt d) :
    d = (pkt.size : ℚ) * 8 / cfg.rate ∧
    (pkt.size = 1000 → cfg.rate = 100 → d = 80) := by
  obtain ⟨q, _, _, hdel, _⟩ := serveOne_sent_char h
  refine ⟨hdel.trans rfl, fun hs hr => ?_⟩
  rw [hdel, hs, hr]
  norm_num [transmissionDelay]

/-- C5 witness: a 1000-byte packet served at rate 100 is transmitted with a
delay of exactly 80 time units. -/
theorem C5_serialization_delay_witness :
    dC5 = (pktC5.size : ℚ) * 8 / cfgC5.rate ∧ dC5 = 80 := by
  have h := C5_serialization_delay cfgC5 sC5 sC5sent pktC5 dC5 rfl
  exact ⟨h.1, h.2 rfl rfl⟩

/-- C6 counterexample: on an element NOT configured as zero-buffer, `put`
called with both an upstream queue reference and an upstream update callback
records no Bridge entry — the `self.zero_buffer` guard also has to hold, so
the claim's "whenever put is called with both parameters" is too broad. -/
theorem C6_counterexample :
    (put cfgC6a pktC6 (some 7) (some 9) (initState cfgC6a)).2 = none ∧
    (put cfgC6a pktC6 (some 7) (some 9) (initState cfgC6a)).1.upstream_stores = [] ∧
    (put cfgC6a pktC6 (some 7) (some 9) (initState cfgC6a)).1.upstream_updates = [] := by
  refine ⟨rfl, rfl, rfl⟩

/-- C6 (amended): whenever `put` completes on an element configured as
zero-buffer with both an upstream queue reference and an upstream update
callback, Bridge entries keyed by the packet's identity are recorded, and a
later `update` for a packet with that identity issues the `get` on the
recorded upstream queue, invokes the recorded upstream update callback, and
discards the Bridge entry. -/
theorem C6_bridge_record_and_consume (cfg : Cfg) (s : SPState) (pkt : Packet)
    (u q : Nat) (hz : cfg.zero_buffer = true)
    (hok : (put cfg pkt (some u) (some q) s).2 = none) :
    dlookup (put cfg pkt (some u) (some q) s).1.upstream_stores pkt.pid = some q ∧
    dlookup (put cfg pkt (some u) (some q) s).1.upstream_updates pkt.pid = some u ∧
    ∀ pkt' : Packet, pkt'.pid = pkt.pid →
      (update cfg (put cfg pkt (some u) (some q) s).1 pkt').2.upstreamGet = some q ∧
      (update cfg (put cfg pkt (some u) (some q) s).1 pkt').2.invoked = some u ∧
      dlookup (update cfg (put cfg pkt (some u) (some q) s).1 pkt').1.upstream_stores
        pkt.pid = none := by
  obtain ⟨r, pqc', hr, ha, hst⟩ := put_success cfg pkt (some u) (some q) s hok
  have hup := putB_upstream_on cfg pkt u q r pqc' (putA pkt s) hz
  have hA := putA_pqc_stores pkt s
  have h1 : dlookup (put cfg pkt (some u) (some q) s).1.upstream_stores pkt.pid =
      some q := by
    rw [hst, hup.1, hA.2.2.2.1, dlookup_dset_self]
  have h2 : dlookup (put cfg pkt (some u) (some q) s).1.upstream_updates pkt.pid =
      some u := by
    rw [hst, hup.2, hA.2.2.2.2, dlookup_dset_self]
  refine ⟨h1, h2, fun pkt' hpid => ?_⟩
  have h1' : dlookup (put cfg pkt (some u) (some q) s).1.upstream_stores pkt'.pid =
      some q := by rw [hpid]; exact h1
  have h2' : dlookup (put cfg pkt (some u) (some q) s).1.upstream_updates pkt'.pid =
      some u := by rw [hpid]; exact h2
  rcases update_char cfg (put cfg pkt (some u) (some q) s).1 pkt' with
    ⟨hzf, _⟩ | ⟨_, hnone, _⟩ | ⟨_, q2, hq2, ⟨hun, _⟩ | ⟨u2, hu2, heq⟩⟩
  · rw [hzf] at hz; cases hz
  · rw [h1'] at hnone; cases hnone
  · rw [h2'] at hun; cases hun
  · have hq2e : q2 = q := by
      rw [h1'] at hq2
      exact (Option.some_inj.mp hq2).symm
    have hu2e : u2 = u := by
      rw [h2'] at hu2
      exact (Option.some_inj.mp hu2).symm
    have hcf := updateCore_fields
      { (put cfg pkt (some u) (some q) s).1 with
        upstream_stores :=
          ddel (put cfg pkt (some u) (some q) s).1.upstream_stores pkt'.pid
        upstream_updates :=
          ddel (put cfg pkt (some u) (some q) s).1.upstream_updates pkt'.pid }
      pkt' (some q2) (some u2)
    rw [heq]
    refine ⟨?_, ?_, ?_⟩
    · rw [hcf.2.2.2.2.2.1, hq2e]
    · rw [hcf.2.2.2.2.2.2, hu2e]
    · rw [hcf.2.2.1]
      dsimp only
      rw [← hpid, dlookup_ddel_self]

/-- C6 witness: the amended bridge statement instantiated at a zero-buffer
element receiving one packet with bridge tokens 7 (callback) and 9 (queue),
then updating that same packet. -/
theorem C6_bridge_witness :
    dlookup (put cfgC6b pktC6 (some 7) (some 9) (initState cfgC6b)).1.upstream_stores
      pktC6.pid = some 9 ∧
    dlookup (put cfgC6b pktC6 (some 7) (some 9) (initState cfgC6b)).1.upstream_updates
      pktC6.pid = some 7 ∧
    ((update cfgC6b (put cfgC6b pktC6 (some 7) (some 9) (initState cfgC6b)).1
        pktC6).2.upstreamGet = some 9 ∧
     (update cfgC6b (put cfgC6b pktC6 (some 7) (some 9) (initState cfgC6b)).1
        pktC6).2.invoked = some 7 ∧
     dlookup (update cfgC6b (put cfgC6b pktC6 (some 7) (some 9)
        (initState cfgC6b)).1 pktC6).1.upstream_stores pktC6.pid = none) := by
  have h := C6_bridge_record_and_consume cfgC6b (initState cfgC6b) pktC6 7 9
    rfl (by rfl)
  exact ⟨h.1, h.2.1, h.2.2 pktC6 rfl⟩

/-- C7: `update` raises the unrecorded-flow accounting error exactly when
the packet's flow id has no entry in `byte_sizes` — and a flow gains an
entry at its first `put` (even a failing one) and never loses it, so for an
ever-admitted flow `update` completes even after the flow's byte count has
drained to zero.  The hypotheses state the call context of the run loop:
on a zero-buffer element the Bridge entries for the packet exist, and the
packet's priority tag is a valid counter key. -/
theorem C7_accounting_error_iff (cfg : Cfg) (s : SPState) (pkt : Packet)
    (hb : cfg.zero_buffer = true →
      (dlookup s.upstream_stores pkt.pid).isSome ∧
      (dlookup s.upstream_updates pkt.pid).isSome)
    (hp : (pqcGet s.pqc pkt.prio).isSome) :
    ((update cfg s pkt).2.err = some UpdErr.unrecordedFlow ↔
      dmem s.byte_sizes pkt.flow_id = false) ∧
    (dmem s.byte_sizes pkt.flow_id = true → (update cfg s pkt).2.err = none) ∧
    (∀ (pkt2 : Packet) (uu us : Option Nat),
      dmem (put cfg pkt2 uu us s).1.byte_sizes pkt2.flow_id = true) ∧
    (∀ f, dmem s.byte_sizes f = true →
      dmem (update cfg s pkt).1.byte_sizes f = true) := by
  have hc3 : ∀ (pkt2 : Packet) (uu us : Option Nat),
      dmem (put cfg pkt2 uu us s).1.byte_sizes pkt2.flow_id = true := by
    intro pkt2 uu us
    rw [(put_putA_fields cfg pkt2 uu us s).2.1]
    exact dmem_ddadd_self _ _ _
  obtain ⟨pq', ha⟩ := Option.isSome_iff_exists.mp (pqcAdd_isSome (-1) hp)
  rcases update_char cfg s pkt with
    ⟨hzf, heq⟩ | ⟨hzt, hnone, _⟩ | ⟨hzt, q, hq, ⟨hun, _⟩ | ⟨u, hu, heq⟩⟩
  · rw [heq]
    rcases updateCore_char s pkt none none with
      ⟨han, _⟩ | ⟨pq2, ha2, ⟨hm, hc⟩ | ⟨hm, hc⟩⟩
    · rw [han] at ha; cases ha
    · rw [hc]
      refine ⟨⟨fun hcontr => Option.noConfusion hcontr, fun hfalse => ?_⟩,
        fun _ => rfl, hc3, fun f hf => ?_⟩
      · rw [hm] at hfalse; cases hfalse
      · dsimp only
        exact dmem_ddadd_mono _ _ _ _ hf
    · rw [hc]
      refine ⟨⟨fun _ => hm, fun _ => rfl⟩, fun ht => ?_, hc3, fun f hf => ?_⟩
      · rw [hm] at ht; cases ht
      · exact hf
  · have hsome := (hb hzt).1
    rw [hnone] at hsome
    simp at hsome
  · have hsome := (hb hzt).2
    rw [hun] at hsome
    simp at hsome
  · rw [heq]
    rcases updateCore_char
        { s with upstream_stores := ddel s.upstream_stores pkt.pid
                 upstream_updates := ddel s.upstream_updates pkt.pid } pkt
        (some q) (some u) with
      ⟨han, _⟩ | ⟨pq2, ha2, ⟨hm, hc⟩ | ⟨hm, hc⟩⟩
    · have han' : pqcAdd s.pqc pkt.prio (-1) = none := han
      rw [ha] at han'
      cases han'
    · rw [hc]
      refine ⟨⟨fun hcontr => Option.noConfusion hcontr, fun hfalse => ?_⟩,
        fun _ => rfl, hc3, fun f hf => ?_⟩
      · have hm' : dmem s.byte_sizes pkt.flow_id = true := hm
        rw [hm'] at hfalse; cases hfalse
      · dsimp only
        exact dmem_ddadd_mono _ _ _ _ hf
    · rw [hc]
      have hm' : dmem s.byte_sizes pkt.flow_id = false := hm
      refine ⟨⟨fun _ => hm', fun _ => rfl⟩, fun ht => ?_, hc3, fun f hf => ?_⟩
      · rw [hm'] at ht; cases ht
      · exact hf

/-- C7 witness: on a plain element whose only recorded flow is flow 9 with a
byte count already drained to zero, `update` for a flow-9 packet completes
without an error, the accounting-error condition matches the recorded-flow
test, admission records a flow, and `update` keeps flow 9 recorded. -/
theorem C7_accounting_witness :
    ((update cfgC7W sC7W pktC7W).2.err = some UpdErr.unrecordedFlow ↔
      dmem sC7W.byte_sizes pktC7W.flow_id = false) ∧
    (update cfgC7W sC7W pktC7W).2.err = none ∧
    dmem (put cfgC7W pktC7W none none sC7W).1.byte_sizes pktC7W.flow_id = true ∧
    dmem (update cfgC7W sC7W pktC7W).1.byte_sizes 9 = true := by
  have h := C7_accounting_error_iff cfgC7W sC7W pktC7W (by decide) (by decide)
  exact ⟨h.1, h.2.1 (by decide), h.2.2.1 pktC7W none none, h.2.2.2 9 (by decide)⟩

/-- C8 counterexample: the claim that at most one work-available wake signal
is ever outstanding fails — the scheduler-level model reaches a state with
two items queued in `packets_available` (two puts, each arriving during a
transmission that had just emptied the element, signal twice before the run
loop consumes either). -/
theorem C8_counterexample :
    SysReach cfgC8 ⟨eC8e, RPos.busy⟩ ∧ 2 ≤ eC8e.pending :=
  ⟨sysReach_eC8e, by decide⟩

/-- C8 (amended): `put` signals the work-available store exactly when
`total_packets == 0` before the arrival; but the store is an unbounded
queue, not a coalescing single-slot condition, and more than one signal can
be outstanding in a reachable state. -/
theorem C8_signal_only_when_idle :
    (∀ (cfg : Cfg) (pkt : Packet) (uu us : Option Nat) (s : SPState),
      (put cfg pkt uu us s).1.pending =
        s.pending + (if totalPQC s.pqc = 0 then 1 else 0)) ∧
    ∃ t : Sys, SysReach cfgC8 t ∧ 2 ≤ t.elem.pending :=
  ⟨fun cfg pkt uu us s => (put_putA_fields cfg pkt uu us s).2.2,
   ⟨⟨eC8e, RPos.busy⟩, sysReach_eC8e, by decide⟩⟩

/-- C9: when `put` raises, the state has already been mutated:
`packets_received` was incremented, `byte_sizes[flow_id]` grew by the
packet's size, and a wake signal was emitted exactly if the element was
idle — admission is not atomic on failure. -/
theorem C9_put_not_atomic_on_failure (cfg : Cfg) (pkt : Packet)
    (uu us : Option Nat) (s : SPState) (e : PutErr)
    (_h : (put cfg pkt uu us s).2 = some e) :
    (put cfg pkt uu us s).1.packets_received = s.packets_received + 1 ∧
    (dlookup (put cfg pkt uu us s).1.byte_sizes pkt.flow_id).getD 0 =
      (dlookup s.byte_sizes pkt.flow_id).getD 0 + pkt.size ∧
    (put cfg pkt uu us s).1.pending =
      s.pending + (if totalPQC s.pqc = 0 then 1 else 0) := by
  have hf := put_putA_fields cfg pkt uu us s
  refine ⟨hf.1, ?_, hf.2.2⟩
  rw [hf.2.1, dlookup_ddadd_self]
  rfl

/-- C9 witness: a `put` of an unmapped flow (flow 5 under `{0: 1}`) raises,
and the failed state shows the increment, the byte growth, and the signal
emitted for the formerly idle element. -/
theorem C9_put_not_atomic_witness :
    (put cfgC9W pktC9W none none (initState cfgC9W)).1.packets_received =
      (initState cfgC9W).packets_received + 1 ∧
    (dlookup (put cfgC9W pktC9W none none (initState cfgC9W)).1.byte_sizes
      pktC9W.flow_id).getD 0 =
      (dlookup (initState cfgC9W).byte_sizes pktC9W.flow_id).getD 0 +
        pktC9W.size ∧
    (put cfgC9W pktC9W none none (initState cfgC9W)).1.pending =
      (initState cfgC9W).pending +
        (if totalPQC (initState cfgC9W).pqc = 0 then 1 else 0) :=
  C9_put_not_atomic_on_failure cfgC9W pktC9W none none (initState cfgC9W)
    PutErr.unresolvable (by rfl)

/-- C10: when `update` raises the unrecorded-flow error, the per-priority
counter at the packet's priority tag has already been decremented and, in
zero-buffer mode, the Bridge entry already consumed; if the counter matched
the owning FIFO's length before the call, it is strictly below it after —
drain accounting is not atomic on failure. -/
theorem C10_update_not_atomic_on_failure (cfg : Cfg) (s : SPState)
    (pkt : Packet)
    (h : (update cfg s pkt).2.err = some UpdErr.unrecordedFlow) :
    pqcGet (update cfg s pkt).1.pqc pkt.prio =
      some ((pqcGet s.pqc pkt.prio).getD 0 - 1) ∧
    (cfg.zero_buffer = true →
      dlookup (update cfg s pkt).1.upstream_stores pkt.pid = none) ∧
    (pqcCount s pkt.prio = (storeLen s pkt.prio : Int) →
      pqcCount (update cfg s pkt).1 pkt.prio <
        (storeLen (update cfg s pkt).1 pkt.prio : Int)) := by
  have hstores := (update_fields cfg s pkt).1
  rcases update_char cfg s pkt with
    ⟨hzf, heq⟩ | ⟨hzt, hnone, heq⟩ | ⟨hzt, q, hq, ⟨hun, heq⟩ | ⟨u, hu, heq⟩⟩
  · rcases updateCore_char s pkt none none with
      ⟨han, hc⟩ | ⟨pq2, ha2, ⟨hm, hc⟩ | ⟨hm, hc⟩⟩
    · rw [heq, hc] at h; cases h
    · rw [heq, hc] at h; cases h
    · have h1 : pqcGet (update cfg s pkt).1.pqc pkt.prio =
          some ((pqcGet s.pqc pkt.prio).getD 0 - 1) := by
        rw [heq, hc]
        dsimp only
        rw [pqcAdd_some_get ha2, Int.sub_eq_add_neg]
      refine ⟨h1, fun hzb => ?_, fun hpre => ?_⟩
      · rw [hzf] at hzb; cases hzb
      · unfold pqcCount storeLen
        rw [hstores, h1]
        unfold pqcCount storeLen at hpre
        simp only [Option.getD_some]
        omega
  · rw [heq] at h; cases h
  · rw [heq] at h; cases h
  · rcases updateCore_char
        { s with upstream_stores := ddel s.upstream_stores pkt.pid
                 upstream_updates := ddel s.upstream_updates pkt.pid } pkt
        (some q) (some u) with
      ⟨han, hc⟩ | ⟨pq2, ha2, ⟨hm, hc⟩ | ⟨hm, hc⟩⟩
    · rw [heq, hc] at h; cases h
    · rw [heq, hc] at h; cases h
    · have ha2' : pqcAdd s.pqc pkt.prio (-1) = some pq2 := ha2
      have h1 : pqcGet (update cfg s pkt).1.pqc pkt.prio =
          some ((pqcGet s.pqc pkt.prio).getD 0 - 1) := by
        rw [heq, hc]
        dsimp only
        rw [pqcAdd_some_get ha2', Int.sub_eq_add_neg]
      refine ⟨h1, fun _ => ?_, fun hpre => ?_⟩
      · rw [heq, hc]
        dsimp only
        rw [dlookup_ddel_self]
      · unfold pqcCount storeLen
        rw [hstores, h1]
        unfold pqcCount storeLen at hpre
        simp only [Option.getD_some]
        omega

/-- C10 witness: on a zero-buffer element with a recorded Bridge entry for
the packet, an `update` for a never-admitted flow raises the accounting
error with the counter already decremented (from 0 to -1, below the empty
FIFO's length) and the Bridge entry consumed. -/
theorem C10_update_not_atomic_witness :
    pqcGet (update cfgC10W sC10W pktC10W).1.pqc pktC10W.prio =
      some ((pqcGet sC10W.pqc pktC10W.prio).getD 0 - 1) ∧
    dlookup (update cfgC10W sC10W pktC10W).1.upstream_stores pktC10W.pid = none ∧
    pqcCount (update cfgC10W sC10W pktC10W).1 pktC10W.prio <
      (storeLen (update cfgC10W sC10W pktC10W).1 pktC10W.prio : Int) := by
  have h := C10_update_not_atomic_on_failure cfgC10W sC10W pktC10W (by rfl)
  exact ⟨h.1, h.2.1 rfl, h.2.2 (by decide)⟩

end NsPy
